import Mathlib

/-!
Verification of the UHD RFNoC DDC block control (`ddc_block_control.cpp`) and
the USRP2 motherboard property dispatch (`mboard_impl.cpp`).

The C++ sources are shallowly embedded: machine doubles that only ever hold
exactly representable values (integers, quotients of small powers of two) are
modelled as rationals, `int`/`uint32_t`/`size_t` as `ℤ`/`ℕ` with explicit
`% 2 ^ 32` / `% 2 ^ 64` where wrap-around is possible, and a C++
`UHD_ASSERT_THROW` / `throw` as an `Option`/`Except` failure.
-/

namespace UHD

/-! ### Register map constants (`ddc_block_control.cpp`, lines 30, 43-50) -/

/-- Space (in bytes) between register banks per channel. -/
def REG_CHAN_OFFSET : ℕ := 2048

def SR_N_ADDR : ℕ := 128 * 8

def SR_M_ADDR : ℕ := 129 * 8

def SR_CONFIG_ADDR : ℕ := 130 * 8

def SR_FREQ_ADDR : ℕ := 132 * 8

def SR_SCALE_IQ_ADDR : ℕ := 133 * 8

def SR_DECIM_ADDR : ℕ := 134 * 8

/-- Per-channel register address (`get_addr`, line 183). -/
def get_addr (base_addr : ℕ) (chan : ℕ) : ℕ :=
  base_addr + REG_CHAN_OFFSET * chan

/-! ### The valid-decimation set (constructor, lines 74-83)

The constructor seeds a `std::set<size_t>` with `1` and then inserts
`(1 << hb) * cic_decim` for every `hb < _num_halfbands` and every
`cic_decim < _cic_max_decim` (note: `cic_decim` starts at `0`).  The
`std::set` iterates in increasing order without duplicates, and the sorted
contents become `_valid_decims`. -/

/-- Ordered duplicate-free insertion, the effect of `std::set<size_t>::insert`
on the sorted list of elements. -/
def insertSorted (x : ℕ) : List ℕ → List ℕ
  | [] => [x]
  | y :: ys =>
    if x < y then x :: y :: ys
    else if x = y then y :: ys
    else y :: insertSorted x ys

theorem mem_insertSorted (x : ℕ) :
    ∀ (l : List ℕ) (a : ℕ), a ∈ insertSorted x l ↔ a = x ∨ a ∈ l := by
  intro l
  induction l with
  | nil => intro a; simp [insertSorted]
  | cons y ys ih =>
    intro a
    unfold insertSorted
    split
    · simp
    · split
      · next hxy =>
        subst hxy
        simp only [List.mem_cons]
        tauto
      · simp only [List.mem_cons, ih]
        tauto

/-- Membership through a fold of element insertions. -/
theorem mem_foldl_step {α : Type} (g : List ℕ → α → List ℕ) (P : α → ℕ → Prop)
    (hg : ∀ acc x a, a ∈ g acc x ↔ a ∈ acc ∨ P x a) :
    ∀ (l : List α) (acc : List ℕ) (a : ℕ),
      a ∈ l.foldl g acc ↔ a ∈ acc ∨ ∃ x ∈ l, P x a := by
  intro l
  induction l with
  | nil => simp
  | cons y ys ih =>
    intro acc a
    rw [List.foldl_cons, ih, hg]
    constructor
    · rintro ((h | h) | ⟨x, hx, hP⟩)
      · exact Or.inl h
      · exact Or.inr ⟨y, by simp, h⟩
      · exact Or.inr ⟨x, by simp [hx], hP⟩
    · rintro (h | ⟨x, hx, hP⟩)
      · exact Or.inl (Or.inl h)
      · rcases List.mem_cons.mp hx with rfl | hx'
        · exact Or.inl (Or.inr hP)
        · exact Or.inr ⟨x, hx', hP⟩

/-- `_valid_decims` as the sorted duplicate-free list a `std::set<size_t>`
iterates as (each entry becomes a degenerate `uhd::range_t`): the seed `{1}`
followed by the two construction loops. -/
def validDecims (numHalfbands cicMaxDecim : ℕ) : List ℕ :=
  (List.range numHalfbands).foldl
    (fun acc hb =>
      (List.range cicMaxDecim).foldl
        (fun acc2 cic_decim => insertSorted (2 ^ hb * cic_decim) acc2) acc)
    [1]

theorem mem_validDecims {numHB cicMax m : ℕ} :
    m ∈ validDecims numHB cicMax ↔
      m = 1 ∨ ∃ hb < numHB, ∃ cic < cicMax, m = 2 ^ hb * cic := by
  unfold validDecims
  rw [mem_foldl_step _ (fun hb a => ∃ cic < cicMax, a = 2 ^ hb * cic)
    (fun acc hb a => by
      rw [mem_foldl_step _ (fun cic a => a = 2 ^ hb * cic)
        (fun acc2 cic a => (mem_insertSorted _ _ _).trans (or_comm))]
      simp)]
  simp

theorem one_mem_validDecims (numHB cicMax : ℕ) : 1 ∈ validDecims numHB cicMax :=
  mem_validDecims.mpr (Or.inl rfl)

theorem validDecims_ne_nil (numHB cicMax : ℕ) : validDecims numHB cicMax ≠ [] :=
  fun h => by simpa [h] using one_mem_validDecims numHB cicMax

/-! ### Nearest-member clipping

`coerce_decim` (lines 464-470) delegates to `uhd::meta_range_t::clip(x, true)`
over the degenerate single-point ranges of `_valid_decims`; that function's
body lives in `host/lib/types/ranges.cpp`, which is not part of the sources
under verification.  Modelled from the spec: clipping into the
Valid-Decimation Set "chooses the nearest member on either side (ties and
out-of-range both resolved by clipping to the closest bound, not by
exception)".  The tie direction is not fixed by the spec; this model keeps
the later (larger) of two equidistant members, and no theorem below depends
on the tie direction. -/

/-- Nearest member of a list of set members to the requested value. -/
def clipNearest (x : ℚ) : List ℕ → Option ℕ
  | [] => none
  | m :: ms =>
    match clipNearest x ms with
    | none => some m
    | some b => if |(m : ℚ) - x| < |(b : ℚ) - x| then some m else some b

theorem clipNearest_isSome (x : ℚ) :
    ∀ {l : List ℕ}, l ≠ [] → ∃ m, clipNearest x l = some m
  | [], h => absurd rfl h
  | m :: ms, _ => by
    unfold clipNearest
    cases clipNearest x ms with
    | none => exact ⟨m, rfl⟩
    | some b =>
      dsimp only
      split
      · exact ⟨m, rfl⟩
      · exact ⟨b, rfl⟩

theorem clipNearest_mem (x : ℚ) :
    ∀ {l : List ℕ} {m : ℕ}, clipNearest x l = some m → m ∈ l := by
  intro l
  induction l with
  | nil => intro m h; simp [clipNearest] at h
  | cons a as ih =>
    intro m h
    unfold clipNearest at h
    revert h
    cases hrec : clipNearest x as with
    | none => intro h; simp at h; simp [h]
    | some b =>
      dsimp only
      split
      · intro h; simp at h; simp [h]
      · intro h
        simp at h
        subst h
        exact List.mem_cons_of_mem _ (ih hrec)

theorem clipNearest_min (x : ℚ) :
    ∀ {l : List ℕ} {m : ℕ}, clipNearest x l = some m →
      ∀ b ∈ l, |(m : ℚ) - x| ≤ |(b : ℚ) - x| := by
  intro l
  induction l with
  | nil => intro m h; simp [clipNearest] at h
  | cons a as ih =>
    intro m h
    unfold clipNearest at h
    revert h
    cases hrec : clipNearest x as with
    | none =>
      intro h
      simp at h
      subst h
      intro b hb
      rcases List.mem_cons.mp hb with rfl | hb'
      · exact le_refl _
      · exact absurd hrec (by
          cases as with
          | nil => simp at hb'
          | cons c cs =>
            obtain ⟨w, hw⟩ := clipNearest_isSome x (l := c :: cs) (by simp)
            simp [hw])
    | some c =>
      dsimp only
      split
      · next hlt =>
        intro h
        simp at h
        subst h
        intro b hb
        rcases List.mem_cons.mp hb with rfl | hb'
        · exact le_refl _
        · exact le_trans (le_of_lt hlt) (ih hrec b hb')
      · next hlt =>
        intro h
        simp at h
        subst h
        intro b hb
        rcases List.mem_cons.mp hb with rfl | hb'
        · exact le_of_not_lt hlt
        · exact ih hrec b hb'

/-- If an exact member is in the list, the nearest member is that member
(point distance zero is uniquely minimal). -/
theorem clipNearest_self {l : List ℕ} {d m : ℕ} (hd : d ∈ l)
    (h : clipNearest (d : ℚ) l = some m) : m = d := by
  have hmin := clipNearest_min (d : ℚ) h d hd
  simp only [sub_self, abs_zero] at hmin
  have : |(m : ℚ) - d| = 0 := le_antisymm hmin (abs_nonneg _)
  have : (m : ℚ) = (d : ℚ) := by
    have := abs_eq_zero.mp this
    linarith [sub_eq_zero.mp this]
  exact_mod_cast this

/-! ### `coerce_decim` (lines 464-470)

```
int coerce_decim(const double requested_decim) const
{
    UHD_ASSERT_THROW(requested_decim > 0);
    return static_cast<int>(_valid_decims.clip(requested_decim, true));
}
```
The assertion failure is modelled as `none`; the `static_cast<int>` of a
double holding an exact small integer is that integer. -/

def coerce_decim (decims : List ℕ) (requested_decim : ℚ) : Option ℤ :=
  if 0 < requested_decim then
    (clipNearest requested_decim decims).map fun m => (m : ℤ)
  else
    none

theorem coerce_decim_pos {decims : List ℕ} {x : ℚ} {d : ℤ}
    (h : coerce_decim decims x = some d) : 0 < x := by
  by_contra hx
  simp [coerce_decim, hx] at h

theorem coerce_decim_nonneg {decims : List ℕ} {x : ℚ} {d : ℤ}
    (h : coerce_decim decims x = some d) : 0 ≤ d := by
  unfold coerce_decim at h
  split at h
  · cases hc : clipNearest x decims with
    | none => rw [hc] at h; simp at h
    | some m => rw [hc] at h; simp at h; omega
  · exact absurd h (by simp)

theorem coerce_decim_mem {decims : List ℕ} {x : ℚ} {d : ℤ}
    (h : coerce_decim decims x = some d) : d.toNat ∈ decims := by
  unfold coerce_decim at h
  split at h
  · cases hc : clipNearest x decims with
    | none => rw [hc] at h; simp at h
    | some m =>
      rw [hc] at h
      have hmd : (m : ℤ) = d := by
        simpa using h
      have := clipNearest_mem x hc
      rw [← hmd]
      simpa using this
  · exact absurd h (by simp)

theorem coerce_decim_min {decims : List ℕ} {x : ℚ} {d : ℤ}
    (h : coerce_decim decims x = some d) :
    ∀ b ∈ decims, |(d : ℚ) - x| ≤ |(b : ℚ) - x| := by
  unfold coerce_decim at h
  split at h
  · cases hc : clipNearest x decims with
    | none => rw [hc] at h; simp at h
    | some m =>
      rw [hc] at h
      have hmd : (m : ℤ) = d := by simpa using h
      intro b hb
      have := clipNearest_min x hc b hb
      rw [← hmd]
      exact_mod_cast this
  · exact absurd h (by simp)

/-- Coercion succeeds on every positive request over a nonempty member list. -/
theorem coerce_decim_isSome {decims : List ℕ} (hne : decims ≠ []) {x : ℚ}
    (hx : 0 < x) : ∃ d, coerce_decim decims x = some d := by
  obtain ⟨m, hm⟩ := clipNearest_isSome x hne
  exact ⟨(m : ℤ), by simp [coerce_decim, hx, hm]⟩

/-- Idempotence of coercion on positive members: any positive member of the
list is returned unchanged. -/
theorem coerce_decim_idem {decims : List ℕ} {d : ℕ} (hd : d ∈ decims)
    (hpos : 0 < d) : coerce_decim decims ((d : ℕ) : ℚ) = some (d : ℤ) := by
  have hne : decims ≠ [] := fun h => by simp [h] at hd
  obtain ⟨m, hm⟩ := clipNearest_isSome ((d : ℕ) : ℚ) hne
  rw [clipNearest_self hd hm] at hm
  have hx : (0 : ℚ) < (d : ℚ) := by exact_mod_cast hpos
  simp [coerce_decim, hx, hm]

/-- When the request is at least `1`, the coerced value is at least `1`
(the member `1` is strictly closer to the request than the member `0`). -/
theorem coerce_decim_one_le {numHB cicMax : ℕ} {x : ℚ} {d : ℤ}
    (h : coerce_decim (validDecims numHB cicMax) x = some d) (hx : 1 ≤ x) :
    1 ≤ d := by
  have hnn := coerce_decim_nonneg h
  rcases lt_or_le 0 d with hpos | hle
  · exact hpos
  · exfalso
    have hd0 : d = 0 := le_antisymm hle hnn
    have hmin := coerce_decim_min h 1 (one_mem_validDecims numHB cicMax)
    rw [hd0] at hmin
    simp only [Int.cast_zero, Nat.cast_one, zero_sub, abs_neg] at hmin
    rw [abs_of_pos (by linarith : (0 : ℚ) < x)] at hmin
    rcases abs_cases ((1 : ℚ) - x) with ⟨he, -⟩ | ⟨he, -⟩ <;> rw [he] at hmin <;>
      linarith

/-! ### Halfband / CIC decomposition (`set_decim`, lines 397-429)

```
uint32_t hb_enable = 0;
uint32_t cic_decim = decim;
while ((cic_decim % 2 == 0) and hb_enable < _num_halfbands) {
    hb_enable++;
    cic_decim /= 2;
}
```
The loop runs at most `budget = _num_halfbands` times; it is embedded as
structural recursion on that budget. -/

def hbSplit : ℕ → ℕ → ℕ × ℕ
  | 0, cic => (0, cic)
  | budget + 1, cic =>
    if cic % 2 = 0 then
      ((hbSplit budget (cic / 2)).1 + 1, (hbSplit budget (cic / 2)).2)
    else
      (0, cic)

theorem hbSplit_le (budget cic : ℕ) : (hbSplit budget cic).1 ≤ budget := by
  induction budget generalizing cic with
  | zero => simp [hbSplit]
  | succ b ih =>
    unfold hbSplit
    split
    · simpa using Nat.succ_le_succ (ih (cic / 2))
    · simp

/-- Characterization of the loop for positive input: it divides out exactly
`h` factors of two where `h` is the number of times the input is evenly
divisible by 2, capped at the budget. -/
theorem hbSplit_spec (budget : ℕ) :
    ∀ {n : ℕ}, 0 < n →
      2 ^ (hbSplit budget n).1 * (hbSplit budget n).2 = n ∧
      ((hbSplit budget n).1 = budget ∨ ¬ 2 ^ ((hbSplit budget n).1 + 1) ∣ n) ∧
      (hbSplit budget n).2 = n / 2 ^ (hbSplit budget n).1 := by
  induction budget with
  | zero =>
    intro n _
    simp [hbSplit]
  | succ b ih =>
    intro n hn
    unfold hbSplit
    by_cases h2 : n % 2 = 0
    · have hdvd : 2 ∣ n := Nat.dvd_of_mod_eq_zero h2
      have hn2 : 0 < n / 2 := Nat.div_pos (Nat.le_of_dvd hn hdvd) (by norm_num)
      obtain ⟨heq, hmax, hdiv⟩ := ih hn2
      rw [if_pos h2]
      dsimp only
      refine ⟨?_, ?_, ?_⟩
      · rw [pow_succ]
        calc 2 ^ (hbSplit b (n / 2)).1 * 2 * (hbSplit b (n / 2)).2
            = 2 * (2 ^ (hbSplit b (n / 2)).1 * (hbSplit b (n / 2)).2) := by ring
          _ = 2 * (n / 2) := by rw [heq]
          _ = n := by omega
      · rcases hmax with hb | hnd
        · exact Or.inl (by omega)
        · refine Or.inr fun hdd => hnd ?_
          obtain ⟨k, hk⟩ := hdd
          refine ⟨k, ?_⟩
          set p1 := (hbSplit b (n / 2)).1 with hp1
          have h2p : (2 : ℕ) ^ (p1 + 1 + 1) = 2 ^ (p1 + 1) * 2 := pow_succ _ _
          rw [hk, h2p]
          have hcm : 2 ^ (p1 + 1) * 2 * k = 2 ^ (p1 + 1) * k * 2 := by ring
          rw [hcm, Nat.mul_div_cancel _ (by norm_num : 0 < 2)]
      · rw [hdiv, Nat.div_div_eq_div_mul]
        congr 1
        rw [pow_succ]
        exact Nat.mul_comm _ _
    · rw [if_neg h2]
      dsimp only
      refine ⟨by simp, Or.inr fun hdd => ?_, by simp⟩
      have : 2 ∣ n := dvd_trans (by norm_num) hdd
      omega

theorem hbSplit_pos {budget n : ℕ} (hn : 0 < n) : 0 < (hbSplit budget n).2 := by
  obtain ⟨heq, -, -⟩ := hbSplit_spec budget hn
  by_contra h
  have : (hbSplit budget n).2 = 0 := by omega
  rw [this, Nat.mul_zero] at heq
  omega

/-! ### Gain compensation (`update_scaling`, lines 448-462, and the gain
calculation at the end of `set_decim`, lines 431-441)

`uhd::math::ceil_log2` lives in `uhdlib/utils/math.hpp` (not among the
sources under verification); modelled from the spec as `ceil(log2 x)`, which
for the exactly-represented natural number `cic_gain = c^4 ≥ 1` is
`Nat.clog 2`.  `boost::math::iround` rounds half away from zero. -/

/-- Fuel-bounded ceiling base-2 logarithm, following the recurrence
`clog2 n = clog2 (ceil (n / 2)) + 1` for `n ≥ 2`. -/
def ceil_log2_loop : ℕ → ℕ → ℕ
  | 0, _ => 0
  | fuel + 1, n => if n ≤ 1 then 0 else ceil_log2_loop fuel ((n + 1) / 2) + 1

def ceil_log2 (n : ℕ) : ℕ := ceil_log2_loop n n

theorem ceil_log2_loop_eq_clog :
    ∀ fuel n, n ≤ fuel → ceil_log2_loop fuel n = Nat.clog 2 n := by
  intro fuel
  induction fuel with
  | zero =>
    intro n hn
    have : n = 0 := by omega
    subst this
    simp [ceil_log2_loop]
  | succ f ih =>
    intro n hn
    unfold ceil_log2_loop
    by_cases h1 : n ≤ 1
    · rw [if_pos h1, Nat.clog_of_right_le_one h1]
    · rw [if_neg h1]
      have h2 : 2 ≤ n := by omega
      rw [ih ((n + 1) / 2) (by omega)]
      rw [Nat.clog_of_two_le one_lt_two h2]
      have h3 : n + 2 - 1 = n + 1 := by omega
      rw [h3]

theorem ceil_log2_eq_clog (n : ℕ) : ceil_log2 n = Nat.clog 2 n :=
  ceil_log2_loop_eq_clog n n le_rfl

/-- Round half away from zero (`boost::math::iround`). -/
def iround (q : ℚ) : ℤ :=
  if 0 ≤ q then ⌊q + 1 / 2⌋ else ⌈q - 1 / 2⌉

def FIXPOINT_SCALING : ℚ := 2 ^ 15

def DDS_GAIN : ℚ := 2

/-- `update_scaling`: returns the fixpoint factor written to the scale
register and the residual scaling cached in `_residual_scaling[chan]`. -/
def update_scaling (dsp_gain : ℚ) : ℤ × ℚ :=
  let compensation_factor : ℚ := 1 / dsp_gain
  let target_factor : ℚ := FIXPOINT_SCALING * compensation_factor
  let actual_factor : ℤ := iround target_factor
  (actual_factor, dsp_gain * (actual_factor : ℚ) / FIXPOINT_SCALING)

/-- Result of a successful `set_decim` call: the sequence of `poke32`
register writes (address, 32-bit value) in program order, the residual
scaling stored for the channel, and whether the odd-decimation advisory
warning fires. -/
structure SetDecimResult where
  pokes : List (ℕ × ℤ)
  residual : ℚ
  warn : Bool
deriving DecidableEq, Repr

/-- `set_decim` (lines 397-442).  A failed `UHD_ASSERT_THROW` is `none`.
The gain fed to `update_scaling` is
`DDS_GAIN * (cic_decim * 1)^4 / 2^ceil_log2(cic_decim^4)` as in the source;
the `poke32` of the (always nonnegative, `int32_t`-ranged) scale factor is
its two's-complement 32-bit image. -/
def set_decim (numHB cicMax chan decim : ℕ) : Option SetDecimResult :=
  if (hbSplit numHB decim).1 ≤ numHB ∧ 0 < (hbSplit numHB decim).2 ∧
      (hbSplit numHB decim).2 ≤ cicMax then
    some
      { pokes :=
          [(get_addr SR_DECIM_ADDR chan,
              ((((hbSplit numHB decim).1 <<< 8 |||
                  (hbSplit numHB decim).2) % 2 ^ 32 : ℕ) : ℤ)),
           (get_addr SR_N_ADDR chan, ((decim % 2 ^ 32 : ℕ) : ℤ)),
           (get_addr SR_M_ADDR chan, 1),
           (get_addr SR_SCALE_IQ_ADDR chan,
             (update_scaling (DDS_GAIN *
                (((hbSplit numHB decim).2 * 1 : ℕ) : ℚ) ^ 4 /
                2 ^ ceil_log2 ((hbSplit numHB decim).2 ^ 4))).1 % 2 ^ 32)],
        residual :=
          (update_scaling (DDS_GAIN *
            (((hbSplit numHB decim).2 * 1 : ℕ) : ℚ) ^ 4 /
            2 ^ ceil_log2 ((hbSplit numHB decim).2 ^ 4))).2,
        warn := decide (1 < (hbSplit numHB decim).2 ∧ (hbSplit numHB decim).1 = 0) }
  else
    none

/-! ### Claims C1, C2, C9: the valid-decimation set and `coerce_decim` -/

/-- C1: the claim states the set built at construction equals
`{2^h * c : 0 ≤ h ≤ N, 1 ≤ c ≤ M} ∪ {1}`, with every element positive and
`2^N * M` a member.  The construction loop actually runs `hb < N` and
`cic_decim` from `0`, so (here with `N = 3`, `M = 16`, the values of the
C5 scenario) the set contains `0` — which `set_decim` itself rejects as an
invalid decimation — and omits `2^3 * 16 = 128` — which `set_decim` itself
accepts.  This contradicts both the stated set and the code's own contract
that the set holds exactly the valid decimations. -/
theorem validDecims_code_bug :
    0 ∈ validDecims 3 16 ∧
    (2 ^ 3 * 16) ∉ validDecims 3 16 ∧
    set_decim 3 16 0 0 = none ∧
    (set_decim 3 16 0 (2 ^ 3 * 16)).isSome = true ∧
    1 ∈ validDecims 3 16 := by
  decide

/-- C2: for every requested decimation `r > 0`, `coerce_decim` succeeds and
returns a member of the valid-decimation set minimizing the distance
`|member - r|` over the whole set (out-of-range requests therefore clip to
the nearest bound instead of raising). -/
theorem coerce_decim_nearest (numHB cicMax : ℕ) (r : ℚ) (hr : 0 < r) :
    ∃ d : ℤ,
      coerce_decim (validDecims numHB cicMax) r = some d ∧
      0 ≤ d ∧
      d.toNat ∈ validDecims numHB cicMax ∧
      ∀ m ∈ validDecims numHB cicMax, |(d : ℚ) - r| ≤ |(m : ℚ) - r| := by
  obtain ⟨d, hd⟩ :=
    coerce_decim_isSome (validDecims_ne_nil numHB cicMax) hr
  exact ⟨d, hd, coerce_decim_nonneg hd, coerce_decim_mem hd,
    coerce_decim_min hd⟩

theorem coerce_decim_nearest_witness :
    (0 : ℚ) < 10 / 3 ∧
    ∃ d : ℤ,
      coerce_decim (validDecims 3 16) (10 / 3) = some d ∧
      0 ≤ d ∧
      d.toNat ∈ validDecims 3 16 ∧
      ∀ m ∈ validDecims 3 16, |(d : ℚ) - 10 / 3| ≤ |(m : ℚ) - 10 / 3| :=
  ⟨by norm_num, coerce_decim_nearest 3 16 (10 / 3) (by norm_num)⟩

/-- C9: the claim states `coerce_decim` returns every member of the
valid-decimation set unchanged.  The member `0` (inserted by the
construction loop, here with one halfband and maximum CIC ratio 2)
instead trips the `requested_decim > 0` assertion, so coercion on that
member raises rather than returning it. -/
theorem coerce_decim_zero_member_code_bug :
    0 ∈ validDecims 1 2 ∧
    coerce_decim (validDecims 1 2) ((0 : ℕ) : ℚ) = none := by
  decide

/-! ### Claim C5: `set_decim` decomposition and register writes -/

/-- C5: for a positive member `D` of the valid-decimation set, `set_decim`
splits `D` into `h` halfbands — the number of times `D` is evenly divisible
by 2, capped at `N` — and the CIC ratio `c = D / 2^h`; when
`0 < c ≤ M` it pokes the 32-bit word `(h << 8) | c` to the decimation
register of the channel, `D` to the rate-numerator register and `1` to the
rate-denominator register (then the scale correction); otherwise it raises
a fatal assertion error. -/
theorem set_decim_decomposes (N M chan D : ℕ)
    (hmem : D ∈ validDecims N M) (hD : 0 < D) :
    2 ^ (hbSplit N D).1 ∣ D ∧
    ((hbSplit N D).1 = N ∨ ¬ 2 ^ ((hbSplit N D).1 + 1) ∣ D) ∧
    (hbSplit N D).1 ≤ N ∧
    (hbSplit N D).2 = D / 2 ^ (hbSplit N D).1 ∧
    (0 < (hbSplit N D).2 ∧ (hbSplit N D).2 ≤ M →
      ∃ res, set_decim N M chan D = some res ∧
        res.pokes =
          [(get_addr SR_DECIM_ADDR chan,
              ((((hbSplit N D).1 <<< 8 ||| (hbSplit N D).2) % 2 ^ 32 : ℕ) : ℤ)),
           (get_addr SR_N_ADDR chan, ((D % 2 ^ 32 : ℕ) : ℤ)),
           (get_addr SR_M_ADDR chan, 1),
           (get_addr SR_SCALE_IQ_ADDR chan,
             (update_scaling (DDS_GAIN * ((hbSplit N D).2 : ℚ) ^ 4 /
                2 ^ ceil_log2 ((hbSplit N D).2 ^ 4))).1 % 2 ^ 32)]) ∧
    (¬ (0 < (hbSplit N D).2 ∧ (hbSplit N D).2 ≤ M) →
      set_decim N M chan D = none) := by
  obtain ⟨heq, hmax, hdiv⟩ := hbSplit_spec N hD
  refine ⟨⟨(hbSplit N D).2, heq.symm⟩, hmax, hbSplit_le N D, hdiv, ?_, ?_⟩
  · rintro ⟨hc0, hcM⟩
    unfold set_decim
    rw [if_pos ⟨hbSplit_le N D, hc0, hcM⟩]
    exact ⟨_, rfl, by norm_num⟩
  · intro hfail
    unfold set_decim
    rw [if_neg fun hh => hfail ⟨hh.2.1, hh.2.2⟩]

theorem set_decim_decomposes_witness :
    (40 ∈ validDecims 3 16 ∧ 0 < 40) ∧
    (2 ^ (hbSplit 3 40).1 ∣ 40 ∧
     ((hbSplit 3 40).1 = 3 ∨ ¬ 2 ^ ((hbSplit 3 40).1 + 1) ∣ 40) ∧
     (hbSplit 3 40).1 ≤ 3 ∧
     (hbSplit 3 40).2 = 40 / 2 ^ (hbSplit 3 40).1 ∧
     (0 < (hbSplit 3 40).2 ∧ (hbSplit 3 40).2 ≤ 16 →
       ∃ res, set_decim 3 16 0 40 = some res ∧
         res.pokes =
           [(get_addr SR_DECIM_ADDR 0,
               ((((hbSplit 3 40).1 <<< 8 ||| (hbSplit 3 40).2) % 2 ^ 32 : ℕ) : ℤ)),
            (get_addr SR_N_ADDR 0, ((40 % 2 ^ 32 : ℕ) : ℤ)),
            (get_addr SR_M_ADDR 0, 1),
            (get_addr SR_SCALE_IQ_ADDR 0,
              (update_scaling (DDS_GAIN * ((hbSplit 3 40).2 : ℚ) ^ 4 /
                 2 ^ ceil_log2 ((hbSplit 3 40).2 ^ 4))).1 % 2 ^ 32)]) ∧
     (¬ (0 < (hbSplit 3 40).2 ∧ (hbSplit 3 40).2 ≤ 16) →
       set_decim 3 16 0 40 = none)) :=
  ⟨by decide, set_decim_decomposes 3 16 0 40 (by decide) (by decide)⟩

/-! ### Claim C6: gain compensation -/

/-- C6: for a CIC ratio `0 < c ≤ M`, the scale correction programmed by
`update_scaling` for the net gain `total = 2·c^4 / 2^ceil(log2 c^4)` is
`round(2^15 · (1/total))`, and the cached residual is
`total · (that factor) / 2^15`.  The factor always lies in
`[2^14, 2^15]`, so it is within the representable signed (`int32_t`) range
and the range clamp is the identity. -/
theorem update_scaling_spec (c M : ℕ) (hc : 0 < c) (hcM : c ≤ M) (total : ℚ)
    (htotal : total = DDS_GAIN * (c : ℚ) ^ 4 / 2 ^ ceil_log2 (c ^ 4)) :
    ∃ f : ℤ,
      f = round ((2 : ℚ) ^ 15 * (1 / total)) ∧
      update_scaling total = (f, total * (f : ℚ) / 2 ^ 15) ∧
      2 ^ 14 ≤ f ∧ f ≤ 2 ^ 15 := by
  have hn1 : 1 ≤ c ^ 4 := Nat.one_le_iff_ne_zero.mpr (pow_ne_zero 4 hc.ne')
  have hk_le : (c ^ 4 : ℕ) ≤ 2 ^ Nat.clog 2 (c ^ 4) := Nat.le_pow_clog one_lt_two _
  have hk_lt : (2 : ℕ) ^ Nat.clog 2 (c ^ 4) < 2 * c ^ 4 := by
    rcases Nat.lt_or_ge (c ^ 4) 2 with hsmall | hbig
    · have hone : c ^ 4 = 1 := le_antisymm (by omega) hn1
      rw [hone, Nat.clog_one_right]
      norm_num
    · have hkpos : 0 < Nat.clog 2 (c ^ 4) := Nat.clog_pos one_lt_two hbig
      have hpred : (2 : ℕ) ^ (Nat.clog 2 (c ^ 4) - 1) < c ^ 4 :=
        Nat.pow_pred_clog_lt_self one_lt_two (by omega)
      have hsplit : (2 : ℕ) ^ Nat.clog 2 (c ^ 4)
          = 2 * 2 ^ (Nat.clog 2 (c ^ 4) - 1) := by
        rw [← pow_succ']
        congr 1
        omega
      rw [hsplit]
      omega
  have hpow_pos : (0 : ℚ) < 2 ^ ceil_log2 (c ^ 4) := by positivity
  have hcq : (0 : ℚ) < (c : ℚ) ^ 4 := by positivity
  have htot_pos : 0 < total := by
    rw [htotal]
    unfold DDS_GAIN
    positivity
  have htot_gt : 1 < total := by
    rw [htotal]
    unfold DDS_GAIN
    rw [lt_div_iff hpow_pos, one_mul, ceil_log2_eq_clog]
    calc (2 : ℚ) ^ Nat.clog 2 (c ^ 4) = ((2 ^ Nat.clog 2 (c ^ 4) : ℕ) : ℚ) := by
          push_cast; ring
      _ < ((2 * c ^ 4 : ℕ) : ℚ) := by exact_mod_cast hk_lt
      _ = 2 * (c : ℚ) ^ 4 := by push_cast; ring
  have htot_le : total ≤ 2 := by
    rw [htotal]
    unfold DDS_GAIN
    rw [div_le_iff hpow_pos, ceil_log2_eq_clog]
    calc (2 : ℚ) * (c : ℚ) ^ 4 = ((2 * c ^ 4 : ℕ) : ℚ) := by push_cast; ring
      _ ≤ ((2 * 2 ^ Nat.clog 2 (c ^ 4) : ℕ) : ℚ) := by
          exact_mod_cast Nat.mul_le_mul_left 2 hk_le
      _ = 2 * 2 ^ Nat.clog 2 (c ^ 4) := by push_cast; ring
  set x : ℚ := (2 : ℚ) ^ 15 * (1 / total) with hx
  have hx_lo : (2 : ℚ) ^ 14 ≤ x := by
    rw [hx, mul_one_div]
    rw [le_div_iff htot_pos]
    nlinarith
  have hx_hi : x < (2 : ℚ) ^ 15 := by
    rw [hx, mul_one_div]
    rw [div_lt_iff htot_pos]
    nlinarith
  have hx_nonneg : 0 ≤ x := le_trans (by positivity) hx_lo
  have hround : iround x = round x := by
    rw [iround, if_pos hx_nonneg, round_eq]
  refine ⟨iround x, by rw [hround], ?_, ?_, ?_⟩
  · simp only [update_scaling, FIXPOINT_SCALING]
  · rw [hround, round_eq]
    have h14 : ((2 ^ 14 : ℤ) : ℚ) ≤ x := by push_cast; exact hx_lo
    calc (2 ^ 14 : ℤ) ≤ ⌊x⌋ := Int.le_floor.mpr h14
      _ ≤ ⌊x + 1 / 2⌋ := Int.floor_le_floor (by linarith)
  · rw [hround, round_eq]
    have : x + 1 / 2 < ((2 ^ 15 + 1 : ℤ) : ℚ) := by push_cast; linarith
    have := Int.floor_lt.mpr this
    omega

theorem update_scaling_spec_witness :
    (0 < 5 ∧ 5 ≤ 16 ∧
      (625 / 512 : ℚ) = DDS_GAIN * (5 : ℚ) ^ 4 / 2 ^ ceil_log2 (5 ^ 4)) ∧
    ∃ f : ℤ,
      f = round ((2 : ℚ) ^ 15 * (1 / (625 / 512 : ℚ))) ∧
      update_scaling (625 / 512 : ℚ) = (f, (625 / 512 : ℚ) * (f : ℚ) / 2 ^ 15) ∧
      2 ^ 14 ≤ f ∧ f ≤ 2 ^ 15 :=
  ⟨⟨by norm_num, by norm_num,
      by norm_num [DDS_GAIN, (by decide : ceil_log2 625 = 10)]⟩,
    update_scaling_spec 5 16 (by norm_num) (by norm_num) (625 / 512 : ℚ)
      (by norm_num [DDS_GAIN, (by decide : ceil_log2 625 = 10)])⟩

/-! ### Claim C7: stream-command routing
(`issue_stream_cmd_action_handler`, lines 360-387, and `issue_stream_cmd`,
lines 166-174) -/

inductive StreamMode
  | start_continuous
  | num_samps_and_done
  | num_samps_and_more
  | stop_continuous
deriving DecidableEq, Repr

structure StreamCmd where
  stream_mode : StreamMode
  num_samps : ℕ
deriving DecidableEq, Repr

inductive EdgeType
  | input_edge
  | output_edge
deriving DecidableEq, Repr

/-- `res_source_info::invert_edge`. -/
def invert_edge : EdgeType → EdgeType
  | .input_edge => .output_edge
  | .output_edge => .input_edge

/-- `res_source_info`: an edge type plus the port (channel) index
(`instance` in the source). -/
structure ResSourceInfo where
  ty : EdgeType
  inst : ℕ
deriving DecidableEq, Repr

/-- Conversion of a C++ `int` to `size_t` (64-bit, two's complement). -/
def cpp_u64 (z : ℤ) : ℕ := (z % 2 ^ 64).toNat

/-- The stream-command action handler: builds the destination edge by
inverting the source edge at the same instance, rescales the sample count of
fixed-count commands by the given decimation (`num_samps` is a 64-bit
`size_t`), and forwards everything else unchanged. -/
def issue_stream_cmd_action_handler (decim : ℤ) (src : ResSourceInfo)
    (cmd : StreamCmd) : ResSourceInfo × StreamCmd :=
  let dst : ResSourceInfo := ⟨invert_edge src.ty, src.inst⟩
  if cmd.stream_mode = StreamMode.num_samps_and_done ∨
      cmd.stream_mode = StreamMode.num_samps_and_more then
    if src.ty = EdgeType.output_edge then
      (dst, { cmd with num_samps := cmd.num_samps * cpp_u64 decim % 2 ^ 64 })
    else
      (dst, { cmd with num_samps := cmd.num_samps / cpp_u64 decim })
  else
    (dst, cmd)

/-- `issue_stream_cmd`: posts the command to the block's own output edge of
the given port, i.e. runs the action handler with the output edge as source. -/
def issue_stream_cmd (decim : ℤ) (cmd : StreamCmd) (port : ℕ) :
    ResSourceInfo × StreamCmd :=
  issue_stream_cmd_action_handler decim ⟨EdgeType.output_edge, port⟩ cmd

/-- C7: a fixed-count stream command arriving on the output edge of a channel
is forwarded to the input edge of the same channel with its count multiplied
by the decimation; one arriving on the input edge is forwarded to the output
edge with the count divided by the decimation; continuous/stop commands are
forwarded to the opposite edge unchanged. -/
theorem stream_cmd_rescaled (decim : ℤ) (src : ResSourceInfo) (cmd : StreamCmd)
    (h0 : 0 < decim) (h64 : decim < 2 ^ 64) :
    (issue_stream_cmd_action_handler decim src cmd).1 =
      ⟨invert_edge src.ty, src.inst⟩ ∧
    ((cmd.stream_mode = StreamMode.num_samps_and_done ∨
        cmd.stream_mode = StreamMode.num_samps_and_more) →
      (src.ty = EdgeType.output_edge →
        cmd.num_samps * decim.toNat < 2 ^ 64 →
        (issue_stream_cmd_action_handler decim src cmd).2.num_samps =
          cmd.num_samps * decim.toNat) ∧
      (src.ty = EdgeType.input_edge →
        (issue_stream_cmd_action_handler decim src cmd).2.num_samps =
          cmd.num_samps / decim.toNat)) ∧
    (¬ (cmd.stream_mode = StreamMode.num_samps_and_done ∨
        cmd.stream_mode = StreamMode.num_samps_and_more) →
      (issue_stream_cmd_action_handler decim src cmd).2 = cmd) := by
  have hu : cpp_u64 decim = decim.toNat := by
    unfold cpp_u64
    rw [Int.emod_eq_of_lt (by omega) h64]
  obtain ⟨ty, inst⟩ := src
  unfold issue_stream_cmd_action_handler
  by_cases hm : cmd.stream_mode = StreamMode.num_samps_and_done ∨
      cmd.stream_mode = StreamMode.num_samps_and_more
  · rw [if_pos hm]
    cases ty with
    | input_edge =>
      simp [hu, hm]
    | output_edge =>
      refine ⟨by simp, fun _ => ⟨fun _ hlt => ?_, by simp⟩, by simp [hm]⟩
      simp [hu]
      omega
  · rw [if_neg hm]
    simp [hm]

theorem stream_cmd_rescaled_witness :
    ((0 : ℤ) < 8 ∧ (8 : ℤ) < 2 ^ 64) ∧
    ((issue_stream_cmd_action_handler 8 ⟨EdgeType.output_edge, 0⟩
        ⟨StreamMode.num_samps_and_done, 1000⟩).1 =
      ⟨invert_edge EdgeType.output_edge, 0⟩ ∧
     ((StreamMode.num_samps_and_done = StreamMode.num_samps_and_done ∨
         StreamMode.num_samps_and_done = StreamMode.num_samps_and_more) →
       (EdgeType.output_edge = EdgeType.output_edge →
         1000 * (8 : ℤ).toNat < 2 ^ 64 →
         (issue_stream_cmd_action_handler 8 ⟨EdgeType.output_edge, 0⟩
             ⟨StreamMode.num_samps_and_done, 1000⟩).2.num_samps =
           1000 * (8 : ℤ).toNat) ∧
       (EdgeType.output_edge = EdgeType.input_edge →
         (issue_stream_cmd_action_handler 8 ⟨EdgeType.output_edge, 0⟩
             ⟨StreamMode.num_samps_and_done, 1000⟩).2.num_samps =
           1000 / (8 : ℤ).toNat)) ∧
     (¬ (StreamMode.num_samps_and_done = StreamMode.num_samps_and_done ∨
         StreamMode.num_samps_and_done = StreamMode.num_samps_and_more) →
       (issue_stream_cmd_action_handler 8 ⟨EdgeType.output_edge, 0⟩
           ⟨StreamMode.num_samps_and_done, 1000⟩).2 =
         ⟨StreamMode.num_samps_and_done, 1000⟩)) :=
  ⟨⟨by decide, by decide⟩,
    stream_cmd_rescaled 8 ⟨EdgeType.output_edge, 0⟩
      ⟨StreamMode.num_samps_and_done, 1000⟩ (by decide) (by decide)⟩

/-! ### The property store and resolver graph (claims C3, C4, C8)

The resolver bodies below are the lambdas registered in `_register_props`
(lines 191-344), per channel.  The engine that runs them is not among the
sources under verification (it lives in the RFNoC node base class), so it is
modelled from the spec, §4.1/§4.2: an external `set` writes the value and
marks the property dirty; resolution then repeatedly picks a resolver whose
read-set contains a dirty property (in registration order), clears the
dirtiness of its read-set, executes its body — an assignment marks the
written property dirty only if the value actually changed, `force_dirty`
marks it unconditionally — and stops when no read-set is dirty; the total
number of resolver executions per external `set` is bounded and exhausting
the bound is a fatal failure (`none`).

One channel's state; channels are independent.  Register pokes performed by
the decimation resolver are modelled by `set_decim` (whose poke list the
engine discards, keeping the stored residual); the DDS tuning computed by
`_set_freq` via `get_freq_and_freq_word` is an external collaborator and is
a parameter `dds : ℚ → ℚ → ℚ` (requested frequency, input rate ↦ actual
frequency). -/

/-- `IO_TYPE_SC16`. -/
def IO_TYPE_SC16 : String := "sc16"

/-- Truncation of a double to `int` (toward zero). -/
def cppTrunc (q : ℚ) : ℤ := if 0 ≤ q then ⌊q⌋ else ⌈q⌉

/-- Per-channel property store: the eight registered properties with their
dirty flags, plus `_residual_scaling[chan]`. -/
structure EState where
  samp_rate_in : ℚ
  samp_rate_out : ℚ
  scaling_in : ℚ
  scaling_out : ℚ
  decim : ℤ
  freq : ℚ
  type_in : String
  type_out : String
  residual_scaling : ℚ
  d_samp_rate_in : Bool
  d_samp_rate_out : Bool
  d_scaling_in : Bool
  d_scaling_out : Bool
  d_decim : Bool
  d_freq : Bool
  d_type_in : Bool
  d_type_out : Bool
deriving DecidableEq, Repr

/-- No property is dirty. -/
def Clean (s : EState) : Prop :=
  s.d_samp_rate_in = false ∧ s.d_samp_rate_out = false ∧
  s.d_scaling_in = false ∧ s.d_scaling_out = false ∧
  s.d_decim = false ∧ s.d_freq = false ∧
  s.d_type_in = false ∧ s.d_type_out = false

/-- Resolver for the output scaling (lines 244-252 and 328-336, registered
twice with the same body): always resets `scaling_out` to
`scaling_in * _residual_scaling.at(chan)`. -/
def resolveScalingOut (s : EState) : EState :=
  { s with
    scaling_out := s.scaling_in * s.residual_scaling,
    d_scaling_out := decide (s.scaling_in * s.residual_scaling ≠ s.scaling_out) }

/-- Resolver for `decim` (lines 256-269): coerce, program the hardware,
recompute the output rate, force the input scaling dirty. -/
def resolveDecim (N M chan : ℕ) (s : EState) : Option EState :=
  match coerce_decim (validDecims N M) ((s.decim : ℚ)) with
  | none => none
  | some d =>
    match set_decim N M chan d.toNat with
    | none => none
    | some res =>
      some
        { s with
          decim := d,
          d_decim := decide (d ≠ s.decim),
          residual_scaling := res.residual,
          samp_rate_out := s.samp_rate_in / (d : ℚ),
          d_samp_rate_out := s.d_samp_rate_out ||
            decide (s.samp_rate_in / (d : ℚ) ≠ s.samp_rate_out),
          d_scaling_in := true }

/-- Resolver for `freq` (lines 272-276): reprogram the DDS from the
requested frequency and the current input rate. -/
def resolveFreq (dds : ℚ → ℚ → ℚ) (s : EState) : EState :=
  { s with
    freq := dds s.freq s.samp_rate_in,
    d_freq := decide (dds s.freq s.samp_rate_in ≠ s.freq) }

/-- Resolver for the input rate (lines 281-297): re-derive `decim` from the
rate ratio (not truncated), recompute the output rate, force `freq` dirty. -/
def resolveSampRateIn (N M : ℕ) (s : EState) : Option EState :=
  match coerce_decim (validDecims N M) (s.samp_rate_in / s.samp_rate_out) with
  | none => none
  | some d =>
    some
      { s with
        decim := d,
        d_decim := s.d_decim || decide (d ≠ s.decim),
        samp_rate_out := s.samp_rate_in / (d : ℚ),
        d_samp_rate_out := s.d_samp_rate_out ||
          decide (s.samp_rate_in / (d : ℚ) ≠ s.samp_rate_out),
        d_freq := true }

/-- Resolver for the output rate (lines 299-315): re-derive `decim` from the
`int`-truncated rate ratio; if `decim` is dirty afterwards, recompute the
input rate as `samp_rate_out * decim`. -/
def resolveSampRateOut (N M : ℕ) (s : EState) : Option EState :=
  match coerce_decim (validDecims N M)
      ((cppTrunc (s.samp_rate_in / s.samp_rate_out) : ℚ)) with
  | none => none
  | some d =>
    if s.d_decim || decide (d ≠ s.decim) then
      some
        { s with
          decim := d,
          d_decim := true,
          samp_rate_in := s.samp_rate_out * (d : ℚ),
          d_samp_rate_in := s.d_samp_rate_in ||
            decide (s.samp_rate_out * (d : ℚ) ≠ s.samp_rate_in) }
    else
      some { s with decim := d, d_decim := false }

/-- Resolver for the input scaling (lines 318-325): only forces the output
scaling dirty. -/
def resolveScalingIn (s : EState) : EState :=
  { s with d_scaling_out := true }

/-- Type resolvers (lines 338-343): constants. -/
def resolveTypeIn (s : EState) : EState :=
  { s with
    type_in := IO_TYPE_SC16,
    d_type_in := decide (IO_TYPE_SC16 ≠ s.type_in) }

def resolveTypeOut (s : EState) : EState :=
  { s with
    type_out := IO_TYPE_SC16,
    d_type_out := decide (IO_TYPE_SC16 ≠ s.type_out) }

inductive RName
  | rScalingOut
  | rDecim
  | rFreq
  | rSampRateIn
  | rSampRateOut
  | rScalingIn
  | rTypeIn
  | rTypeOut
deriving DecidableEq, Repr

/-- First resolver, in registration order, whose read-set holds a dirty
property (the duplicate `scaling_out` registration has an identical body and
is collapsed into the first). -/
def pick (s : EState) : Option RName :=
  if s.d_scaling_out then some .rScalingOut
  else if s.d_decim then some .rDecim
  else if s.d_freq then some .rFreq
  else if s.d_samp_rate_in then some .rSampRateIn
  else if s.d_samp_rate_out then some .rSampRateOut
  else if s.d_scaling_in then some .rScalingIn
  else if s.d_type_in then some .rTypeIn
  else if s.d_type_out then some .rTypeOut
  else none

/-- Execute one resolver: clear the dirtiness of its read-set, then run its
body. -/
def runResolver (N M chan : ℕ) (dds : ℚ → ℚ → ℚ) :
    RName → EState → Option EState
  | .rScalingOut, s => some (resolveScalingOut { s with d_scaling_out := false })
  | .rDecim, s => resolveDecim N M chan { s with d_decim := false }
  | .rFreq, s => some (resolveFreq dds { s with d_freq := false })
  | .rSampRateIn, s => resolveSampRateIn N M { s with d_samp_rate_in := false }
  | .rSampRateOut, s => resolveSampRateOut N M { s with d_samp_rate_out := false }
  | .rScalingIn, s => some (resolveScalingIn { s with d_scaling_in := false })
  | .rTypeIn, s => some (resolveTypeIn { s with d_type_in := false })
  | .rTypeOut, s => some (resolveTypeOut { s with d_type_out := false })

/-- Run resolvers until no read-set is dirty; exceeding the execution bound
(or a resolver assertion) is a fatal failure. -/
def run (N M chan : ℕ) (dds : ℚ → ℚ → ℚ) : ℕ → EState → Option EState
  | 0, s =>
    match pick s with
    | none => some s
    | some _ => none
  | fuel + 1, s =>
    match pick s with
    | none => some s
    | some n => (runResolver N M chan dds n s).bind (run N M chan dds fuel)

/-- External property writes (API `set_property` / edge property updates):
write the value and mark the property dirty. -/
inductive Op
  | setDecim (r : ℤ)
  | setSampRateIn (v : ℚ)
  | setSampRateOut (v : ℚ)
  | setScalingIn (v : ℚ)
  | setScalingOut (v : ℚ)
  | setFreq (v : ℚ)
  | setTypeIn (v : String)
  | setTypeOut (v : String)
deriving DecidableEq, Repr

def applyOp : Op → EState → EState
  | .setDecim r, s => { s with decim := r, d_decim := true }
  | .setSampRateIn v, s => { s with samp_rate_in := v, d_samp_rate_in := true }
  | .setSampRateOut v, s => { s with samp_rate_out := v, d_samp_rate_out := true }
  | .setScalingIn v, s => { s with scaling_in := v, d_scaling_in := true }
  | .setScalingOut v, s => { s with scaling_out := v, d_scaling_out := true }
  | .setFreq v, s => { s with freq := v, d_freq := true }
  | .setTypeIn v, s => { s with type_in := v, d_type_in := true }
  | .setTypeOut v, s => { s with type_out := v, d_type_out := true }

/-- An external `set` followed by resolution to fixpoint. -/
def runOp (N M chan : ℕ) (dds : ℚ → ℚ → ℚ) (fuel : ℕ) (op : Op) (s : EState) :
    Option EState :=
  run N M chan dds fuel (applyOp op s)

/-- `set_output_rate` (lines 152-157): coerce the (untruncated) ratio of the
current input rate to the requested rate, then set the `decim` property. -/
def set_output_rate (N M chan : ℕ) (dds : ℚ → ℚ → ℚ) (fuel : ℕ) (s : EState)
    (rate : ℚ) : Option EState :=
  match coerce_decim (validDecims N M) (s.samp_rate_in / rate) with
  | none => none
  | some d => runOp N M chan dds fuel (.setDecim d) s

/-! ### Engine facts -/

theorem pick_none_clean {s : EState} (h : pick s = none) : Clean s := by
  unfold pick at h
  split_ifs at h with h1 h2 h3 h4 h5 h6 h7 h8
  exact ⟨by simpa using h4, by simpa using h5, by simpa using h6,
    by simpa using h1, by simpa using h2, by simpa using h3,
    by simpa using h7, by simpa using h8⟩

theorem pick_spec {s : EState} {n : RName} (h : pick s = some n) :
    (n = RName.rScalingOut ∧ s.d_scaling_out = true) ∨
    (n = RName.rDecim ∧ s.d_decim = true) ∨
    (n = RName.rFreq ∧ s.d_freq = true) ∨
    (n = RName.rSampRateIn ∧ s.d_samp_rate_in = true) ∨
    (n = RName.rSampRateOut ∧ s.d_samp_rate_out = true) ∨
    (n = RName.rScalingIn ∧ s.d_scaling_in = true) ∨
    (n = RName.rTypeIn ∧ s.d_type_in = true) ∨
    (n = RName.rTypeOut ∧ s.d_type_out = true) := by
  unfold pick at h
  split_ifs at h <;> simp_all

theorem run_some_elim {N M chan : ℕ} {dds : ℚ → ℚ → ℚ} {fuel : ℕ}
    {s s' : EState} (h : run N M chan dds fuel s = some s') :
    (pick s = none ∧ s' = s) ∨
    ∃ n f t, pick s = some n ∧ fuel = f + 1 ∧
      runResolver N M chan dds n s = some t ∧
      run N M chan dds f t = some s' := by
  cases fuel with
  | zero =>
    unfold run at h
    cases hp : pick s with
    | none =>
      rw [hp] at h
      dsimp only at h
      exact Or.inl ⟨rfl, (Option.some.inj h).symm⟩
    | some n =>
      rw [hp] at h
      dsimp only at h
      cases h
  | succ f =>
    unfold run at h
    cases hp : pick s with
    | none =>
      rw [hp] at h
      dsimp only at h
      exact Or.inl ⟨rfl, (Option.some.inj h).symm⟩
    | some n =>
      rw [hp] at h
      dsimp only at h
      cases ht : runResolver N M chan dds n s with
      | none =>
        rw [ht] at h
        cases h
      | some t =>
        rw [ht] at h
        rw [Option.some_bind] at h
        exact Or.inr ⟨n, f, t, rfl, rfl, ht, h⟩

/-! ### Claim C4: the output-scaling invariant -/

/-- The documented invariant: after resolution,
`scaling_out = scaling_in * residual_scaling`. -/
def ScalingInv (s : EState) : Prop :=
  s.scaling_out = s.scaling_in * s.residual_scaling

/-- Inductive strengthening: either the output-scaling (or input-scaling)
path is still marked dirty — so the output-scaling resolver will run again —
or the invariant already holds. -/
def P3 (s : EState) : Prop :=
  s.d_scaling_out = true ∨ s.d_scaling_in = true ∨ ScalingInv s

theorem P3_step {N M chan : ℕ} {dds : ℚ → ℚ → ℚ} {n : RName} {s t : EState}
    (h : runResolver N M chan dds n s = some t) (hs : P3 s) : P3 t := by
  cases n with
  | rScalingOut =>
    simp only [runResolver, resolveScalingOut] at h
    obtain rfl := Option.some.inj h
    exact Or.inr (Or.inr rfl)
  | rDecim =>
    simp only [runResolver, resolveDecim] at h
    rcases hc : coerce_decim (validDecims N M) ((s.decim : ℚ)) with - | d
    · rw [hc] at h; cases h
    · rw [hc] at h
      dsimp only at h
      rcases hsd : set_decim N M chan d.toNat with - | res
      · rw [hsd] at h; cases h
      · rw [hsd] at h
        dsimp only at h
        obtain rfl := Option.some.inj h
        exact Or.inr (Or.inl rfl)
  | rFreq =>
    simp only [runResolver, resolveFreq] at h
    obtain rfl := Option.some.inj h
    rcases hs with h1 | h1 | h1
    · exact Or.inl h1
    · exact Or.inr (Or.inl h1)
    · exact Or.inr (Or.inr h1)
  | rSampRateIn =>
    simp only [runResolver, resolveSampRateIn] at h
    rcases hc : coerce_decim (validDecims N M)
        (s.samp_rate_in / s.samp_rate_out) with - | d
    · rw [hc] at h; cases h
    · rw [hc] at h
      dsimp only at h
      obtain rfl := Option.some.inj h
      rcases hs with h1 | h1 | h1
      · exact Or.inl h1
      · exact Or.inr (Or.inl h1)
      · exact Or.inr (Or.inr h1)
  | rSampRateOut =>
    simp only [runResolver, resolveSampRateOut] at h
    rcases hc : coerce_decim (validDecims N M)
        ((cppTrunc (s.samp_rate_in / s.samp_rate_out) : ℚ)) with - | d
    · rw [hc] at h; cases h
    · rw [hc] at h
      dsimp only at h
      split at h <;>
      · obtain rfl := Option.some.inj h
        rcases hs with h1 | h1 | h1
        · exact Or.inl h1
        · exact Or.inr (Or.inl h1)
        · exact Or.inr (Or.inr h1)
  | rScalingIn =>
    simp only [runResolver, resolveScalingIn] at h
    obtain rfl := Option.some.inj h
    exact Or.inl rfl
  | rTypeIn =>
    simp only [runResolver, resolveTypeIn] at h
    obtain rfl := Option.some.inj h
    rcases hs with h1 | h1 | h1
    · exact Or.inl h1
    · exact Or.inr (Or.inl h1)
    · exact Or.inr (Or.inr h1)
  | rTypeOut =>
    simp only [runResolver, resolveTypeOut] at h
    obtain rfl := Option.some.inj h
    rcases hs with h1 | h1 | h1
    · exact Or.inl h1
    · exact Or.inr (Or.inl h1)
    · exact Or.inr (Or.inr h1)

theorem P3_run {N M chan : ℕ} {dds : ℚ → ℚ → ℚ} :
    ∀ (fuel : ℕ) (s s' : EState), P3 s →
      run N M chan dds fuel s = some s' → ScalingInv s' ∧ Clean s' := by
  intro fuel
  induction fuel with
  | zero =>
    intro s s' hs h
    rcases run_some_elim h with ⟨hp, rfl⟩ | ⟨n, f, t, -, hf, -⟩
    · have hc := pick_none_clean hp
      refine ⟨?_, hc⟩
      rcases hs with h1 | h1 | h1
      · rw [hc.2.2.2.1] at h1; cases h1
      · rw [hc.2.2.1] at h1; cases h1
      · exact h1
    · cases hf
  | succ f ih =>
    intro s s' hs h
    rcases run_some_elim h with ⟨hp, rfl⟩ | ⟨n, f', t, hpick, hf, ht, hrun⟩
    · have hc := pick_none_clean hp
      refine ⟨?_, hc⟩
      rcases hs with h1 | h1 | h1
      · rw [hc.2.2.2.1] at h1; cases h1
      · rw [hc.2.2.1] at h1; cases h1
      · exact h1
    · obtain rfl : f' = f := by omega
      exact ih t s' (P3_step ht hs) hrun

/-- C4: the output scaling is a derived value: if the invariant
`scaling_out = scaling_in * residual` held before an external property write,
it holds again whenever the triggered resolution completes — and after an
attempted external write to the output scaling itself it holds
unconditionally, i.e. the externally supplied value never survives
resolution. -/
theorem scaling_out_invariant (N M chan : ℕ) (dds : ℚ → ℚ → ℚ) (fuel : ℕ) :
    (∀ (op : Op) (s s' : EState), ScalingInv s →
      runOp N M chan dds fuel op s = some s' → ScalingInv s') ∧
    (∀ (v : ℚ) (s s' : EState),
      runOp N M chan dds fuel (Op.setScalingOut v) s = some s' →
      ScalingInv s') := by
  constructor
  · intro op s s' hinv h
    refine (P3_run fuel (applyOp op s) s' ?_ h).1
    cases op with
    | setDecim r => exact Or.inr (Or.inr hinv)
    | setSampRateIn v => exact Or.inr (Or.inr hinv)
    | setSampRateOut v => exact Or.inr (Or.inr hinv)
    | setScalingIn v => exact Or.inr (Or.inl rfl)
    | setScalingOut v => exact Or.inl rfl
    | setFreq v => exact Or.inr (Or.inr hinv)
    | setTypeIn v => exact Or.inr (Or.inr hinv)
    | setTypeOut v => exact Or.inr (Or.inr hinv)
  · intro v s s' h
    exact (P3_run fuel (applyOp (Op.setScalingOut v) s) s' (Or.inl rfl) h).1

theorem scaling_out_invariant_witness :
    ScalingInv
      { samp_rate_in := 8, samp_rate_out := 8, scaling_in := 1, scaling_out := 1,
        decim := 1, freq := 0, type_in := "sc16", type_out := "sc16",
        residual_scaling := 1,
        d_samp_rate_in := false, d_samp_rate_out := false, d_scaling_in := false,
        d_scaling_out := false, d_decim := false, d_freq := false,
        d_type_in := false, d_type_out := false } ∧
    ScalingInv
      { samp_rate_in := 8, samp_rate_out := 8, scaling_in := 2, scaling_out := 2,
        decim := 1, freq := 0, type_in := "sc16", type_out := "sc16",
        residual_scaling := 1,
        d_samp_rate_in := false, d_samp_rate_out := false, d_scaling_in := false,
        d_scaling_out := false, d_decim := false, d_freq := false,
        d_type_in := false, d_type_out := false } :=
  ⟨by norm_num [ScalingInv],
    (scaling_out_invariant 1 5 0 (fun f _ => f) 8).1 (Op.setScalingIn 2)
      { samp_rate_in := 8, samp_rate_out := 8, scaling_in := 1, scaling_out := 1,
        decim := 1, freq := 0, type_in := "sc16", type_out := "sc16",
        residual_scaling := 1,
        d_samp_rate_in := false, d_samp_rate_out := false, d_scaling_in := false,
        d_scaling_out := false, d_decim := false, d_freq := false,
        d_type_in := false, d_type_out := false }
      _
      (by norm_num [ScalingInv])
      (by norm_num [runOp, run, pick, runResolver, resolveScalingIn,
        resolveScalingOut, applyOp])⟩

/-! ### The tail phase of a resolution

Once the decimation and the two sample rates are settled (their dirty flags
are clear), the remaining resolvers (frequency, scaling, types) can only
touch `freq`, `scaling_out` and the types: the rates, the decimation, the
input scaling and the residual scaling are left untouched, the run ends
clean, and if the scaling path was dirty the output scaling ends at
`scaling_in * residual_scaling`. -/
theorem tail_run {N M chan : ℕ} {dds : ℚ → ℚ → ℚ} :
    ∀ (fuel : ℕ) (s s' : EState),
      s.d_decim = false → s.d_samp_rate_in = false →
      s.d_samp_rate_out = false →
      run N M chan dds fuel s = some s' →
      s'.samp_rate_in = s.samp_rate_in ∧
      s'.samp_rate_out = s.samp_rate_out ∧
      s'.decim = s.decim ∧
      s'.scaling_in = s.scaling_in ∧
      s'.residual_scaling = s.residual_scaling ∧
      Clean s' ∧
      (s.d_scaling_out = false ∧ s.d_scaling_in = false →
        s'.scaling_out = s.scaling_out) ∧
      (s.d_scaling_out = true ∨ s.d_scaling_in = true →
        s'.scaling_out = s.scaling_in * s.residual_scaling) := by
  intro fuel
  induction fuel with
  | zero =>
    intro s s' h1 h2 h3 h
    rcases run_some_elim h with ⟨hp, rfl⟩ | ⟨n, f, t, hpick, hf, -, -⟩
    · have hc := pick_none_clean hp
      refine ⟨rfl, rfl, rfl, rfl, rfl, hc, fun _ => rfl, fun hd => ?_⟩
      rcases hd with hd | hd
      · rw [hc.2.2.2.1] at hd; cases hd
      · rw [hc.2.2.1] at hd; cases hd
    · cases hf
  | succ f ih =>
    intro s s' h1 h2 h3 h
    rcases run_some_elim h with ⟨hp, rfl⟩ | ⟨n, f', t, hpick, hf, ht, hrun⟩
    · have hc := pick_none_clean hp
      refine ⟨rfl, rfl, rfl, rfl, rfl, hc, fun _ => rfl, fun hd => ?_⟩
      rcases hd with hd | hd
      · rw [hc.2.2.2.1] at hd; cases hd
      · rw [hc.2.2.1] at hd; cases hd
    · obtain rfl : f' = f := by omega
      rcases pick_spec hpick with ⟨rfl, hflag⟩ | ⟨rfl, hflag⟩ | ⟨rfl, hflag⟩ |
        ⟨rfl, hflag⟩ | ⟨rfl, hflag⟩ | ⟨rfl, hflag⟩ | ⟨rfl, hflag⟩ | ⟨rfl, hflag⟩
      · -- output-scaling resolver
        simp only [runResolver] at ht
        obtain rfl := Option.some.inj ht
        obtain ⟨i1, i2, i3, i4, i5, i6, i7, i8⟩ :=
          ih (resolveScalingOut { s with d_scaling_out := false }) s'
            h1 h2 h3 hrun
        refine ⟨i1, i2, i3, i4, i5, i6, fun hcl => ?_, fun _ => ?_⟩
        · rw [hcl.1] at hflag; cases hflag
        · by_cases hA : (resolveScalingOut
              { s with d_scaling_out := false }).d_scaling_out = false ∧
              (resolveScalingOut
                { s with d_scaling_out := false }).d_scaling_in = false
          · exact i7 hA
          · refine i8 ?_
            revert hA
            cases hb1 : (resolveScalingOut
                { s with d_scaling_out := false }).d_scaling_out <;>
              cases hb2 : (resolveScalingOut
                { s with d_scaling_out := false }).d_scaling_in <;> simp
      · rw [h1] at hflag; cases hflag
      · -- frequency resolver
        simp only [runResolver] at ht
        obtain rfl := Option.some.inj ht
        obtain ⟨i1, i2, i3, i4, i5, i6, i7, i8⟩ :=
          ih (resolveFreq dds { s with d_freq := false }) s' h1 h2 h3 hrun
        exact ⟨i1, i2, i3, i4, i5, i6, i7, i8⟩
      · rw [h2] at hflag; cases hflag
      · rw [h3] at hflag; cases hflag
      · -- input-scaling resolver
        simp only [runResolver] at ht
        obtain rfl := Option.some.inj ht
        obtain ⟨i1, i2, i3, i4, i5, i6, i7, i8⟩ :=
          ih (resolveScalingIn { s with d_scaling_in := false }) s' h1 h2 h3 hrun
        refine ⟨i1, i2, i3, i4, i5, i6, fun hcl => ?_, fun _ => i8 (Or.inl rfl)⟩
        rw [hcl.2] at hflag; cases hflag
      · -- type-in resolver
        simp only [runResolver] at ht
        obtain rfl := Option.some.inj ht
        obtain ⟨i1, i2, i3, i4, i5, i6, i7, i8⟩ :=
          ih (resolveTypeIn { s with d_type_in := false }) s' h1 h2 h3 hrun
        exact ⟨i1, i2, i3, i4, i5, i6, i7, i8⟩
      · -- type-out resolver
        simp only [runResolver] at ht
        obtain rfl := Option.some.inj ht
        obtain ⟨i1, i2, i3, i4, i5, i6, i7, i8⟩ :=
          ih (resolveTypeOut { s with d_type_out := false }) s' h1 h2 h3 hrun
        exact ⟨i1, i2, i3, i4, i5, i6, i7, i8⟩

/-- Coercion of a positive member, with the casts of the stored `int`
property in place. -/
theorem coerce_decim_idem_int {N M : ℕ} {d : ℤ}
    (hmem : d.toNat ∈ validDecims N M) (hd : 1 ≤ d) :
    coerce_decim (validDecims N M) ((d : ℚ)) = some d := by
  have h0d : (0 : ℤ) ≤ d := by omega
  have := coerce_decim_idem hmem (by omega : 0 < d.toNat)
  have e1 : ((d.toNat : ℕ) : ℚ) = ((d : ℤ) : ℚ) := by
    rw [← Int.cast_natCast, Int.toNat_of_nonneg h0d]
  have e2 : ((d.toNat : ℕ) : ℤ) = d := Int.toNat_of_nonneg h0d
  rw [e1, e2] at this
  exact this

/-- Once the decimation has settled to a positive member `d` of the
valid-decimation set with `samp_rate_out = samp_rate_in / d`, and the
decimation flag is clear while the input scaling is forced dirty, the rest
of the resolution (in any order of pending frequency / input-rate /
output-rate / scaling work) leaves the rates, the decimation, the input
scaling and the residual alone, ends clean, and re-derives the output
scaling from the residual. -/
theorem settled_run {N M chan : ℕ} {dds : ℚ → ℚ → ℚ} :
    ∀ (fuel : ℕ) (u s' : EState) (d : ℤ),
      1 ≤ d →
      coerce_decim (validDecims N M) ((d : ℚ)) = some d →
      u.decim = d →
      u.samp_rate_out = u.samp_rate_in / (d : ℚ) →
      u.d_decim = false → u.d_scaling_out = false →
      u.d_type_in = false → u.d_type_out = false →
      u.d_scaling_in = true →
      run N M chan dds fuel u = some s' →
      s'.samp_rate_in = u.samp_rate_in ∧
      s'.samp_rate_out = u.samp_rate_out ∧
      s'.decim = d ∧
      s'.scaling_in = u.scaling_in ∧
      s'.residual_scaling = u.residual_scaling ∧
      s'.scaling_out = u.scaling_in * u.residual_scaling ∧
      Clean s' := by
  intro fuel
  induction fuel with
  | zero =>
    intro u s' d hd hidem hdec hout f1 f4 f5 f6 f7 h
    rcases run_some_elim h with ⟨hp, rfl⟩ | ⟨n, f', t, hpk, hfuel, ht, hrun⟩
    · have hc := pick_none_clean hp
      rw [hc.2.2.1] at f7
      cases f7
    · cases hfuel
  | succ f ih =>
    intro u s' d hd hidem hdec hout f1 f4 f5 f6 f7 h
    have hdq : ((d : ℤ) : ℚ) ≠ 0 := by
      have : (0 : ℤ) < d := by omega
      exact_mod_cast this.ne'
    by_cases hfq : u.d_freq = true
    · -- frequency resolver runs first
      rcases run_some_elim h with ⟨hp, rfl⟩ | ⟨n, f', t, hpk, hfuel, ht, hrun⟩
      · have hc := pick_none_clean hp
        rw [hc.2.2.1] at f7
        cases f7
      · obtain rfl : f' = f := by omega
        have hpick : pick u = some RName.rFreq := by
          simp [pick, f4, f1, hfq]
        rw [hpick] at hpk
        obtain rfl : n = RName.rFreq := (Option.some.inj hpk).symm
        simp only [runResolver] at ht
        obtain rfl := Option.some.inj ht
        obtain ⟨i1, i2, i3, i4, i5, i6, i7⟩ :=
          ih (resolveFreq dds { u with d_freq := false }) s' d hd hidem
            (by exact hdec) (by exact hout) (by exact f1) (by exact f4)
            (by exact f5) (by exact f6) (by exact f7) hrun
        exact ⟨i1, i2, i3, i4, i5, i6, i7⟩
    · have hfq' : u.d_freq = false := by revert hfq; cases u.d_freq <;> simp
      by_cases hiq : u.d_samp_rate_in = true
      · -- input-rate resolver
        rcases run_some_elim h with ⟨hp, rfl⟩ | ⟨n, f', t, hpk, hfuel, ht, hrun⟩
        · have hc := pick_none_clean hp
          rw [hc.2.2.1] at f7
          cases f7
        · obtain rfl : f' = f := by omega
          have hpick : pick u = some RName.rSampRateIn := by
            simp [pick, f4, f1, hfq', hiq]
          rw [hpick] at hpk
          obtain rfl : n = RName.rSampRateIn := (Option.some.inj hpk).symm
          simp only [runResolver, resolveSampRateIn] at ht
          dsimp only at ht
          by_cases hin : u.samp_rate_in = 0
          · exfalso
            have hout0 : u.samp_rate_out = 0 := by rw [hout, hin, zero_div]
            rw [hin, hout0, zero_div] at ht
            have e2 : coerce_decim (validDecims N M) 0 = none := by
              simp [coerce_decim]
            rw [e2] at ht
            cases ht
          · have hratio : u.samp_rate_in / u.samp_rate_out = ((d : ℤ) : ℚ) := by
              rw [hout]
              field_simp
            rw [hratio, hidem] at ht
            dsimp only at ht
            rw [f1, hdec] at ht
            rw [← hout] at ht
            have e1 : (false || decide (d ≠ d)) = false := by simp
            have e2 : (u.d_samp_rate_out ||
                decide (u.samp_rate_out ≠ u.samp_rate_out))
                = u.d_samp_rate_out := by simp
            rw [e1, e2] at ht
            obtain rfl := Option.some.inj ht
            obtain ⟨i1, i2, i3, i4, i5, i6, i7⟩ :=
              ih _ s' d hd hidem (by rfl) (by exact hout) (by rfl)
                (by exact f4) (by exact f5) (by exact f6) (by exact f7) hrun
            exact ⟨i1, i2, i3, i4, i5, i6, i7⟩
      · have hiq' : u.d_samp_rate_in = false := by
          revert hiq; cases u.d_samp_rate_in <;> simp
        by_cases hoq : u.d_samp_rate_out = true
        · -- output-rate resolver
          rcases run_some_elim h with ⟨hp, rfl⟩ |
            ⟨n, f', t, hpk, hfuel, ht, hrun⟩
          · have hc := pick_none_clean hp
            rw [hc.2.2.1] at f7
            cases f7
          · obtain rfl : f' = f := by omega
            have hpick : pick u = some RName.rSampRateOut := by
              simp [pick, f1, hiq', hfq', f4, hoq]
            rw [hpick] at hpk
            obtain rfl : n = RName.rSampRateOut := (Option.some.inj hpk).symm
            simp only [runResolver, resolveSampRateOut] at ht
            dsimp only at ht
            by_cases hin : u.samp_rate_in = 0
            · exfalso
              have hout0 : u.samp_rate_out = 0 := by rw [hout, hin, zero_div]
              rw [hin, hout0, zero_div] at ht
              have e1 : cppTrunc 0 = 0 := by
                rw [cppTrunc, if_pos le_rfl]
                exact Int.floor_zero
              rw [e1, Int.cast_zero] at ht
              have e2 : coerce_decim (validDecims N M) 0 = none := by
                simp [coerce_decim]
              rw [e2] at ht
              cases ht
            · have hratio : u.samp_rate_in / u.samp_rate_out
                  = ((d : ℤ) : ℚ) := by
                rw [hout]
                field_simp
              have htr : cppTrunc ((d : ℚ)) = d := by
                have h0 : (0 : ℚ) ≤ ((d : ℤ) : ℚ) := by
                  have : (0 : ℤ) ≤ d := by omega
                  exact_mod_cast this
                rw [cppTrunc, if_pos h0]
                exact Int.floor_intCast d
              rw [hratio, htr, hidem] at ht
              dsimp only at ht
              have hcond : (({ u with d_samp_rate_out := false } :
                  EState).d_decim ||
                  decide (d ≠ ({ u with d_samp_rate_out := false } :
                    EState).decim)) = false := by
                dsimp only
                rw [f1, hdec]
                simp
              rw [hcond] at ht
              rw [if_neg (by simp : ¬ (false = true))] at ht
              obtain rfl := Option.some.inj ht
              obtain ⟨i1, i2, i3, i4, i5, i6, -, i8⟩ :=
                tail_run f' _ s' (by rfl) (by exact hiq') (by rfl) hrun
              exact ⟨i1, i2, i3, i4, i5, i8 (Or.inr f7), i6⟩
        · have hoq' : u.d_samp_rate_out = false := by
            revert hoq; cases u.d_samp_rate_out <;> simp
          obtain ⟨i1, i2, i3, i4, i5, i6, -, i8⟩ :=
            tail_run (f + 1) u s' f1 hiq' hoq' h
          exact ⟨i1, i2, i3.trans hdec, i4, i5, i8 (Or.inr f7), i6⟩

/-- Master lemma for an external set of the `decim` property: if the
resolution completes from a clean state, the stored decimation is the
coercion of the requested value, the input rate is untouched, the output
rate is `input / decim`, and the output-scaling invariant is
re-established from the new residual. -/
theorem runOp_setDecim_spec {N M chan : ℕ} {dds : ℚ → ℚ → ℚ} {fuel : ℕ}
    {s s' : EState} {r : ℤ} (hC : Clean s)
    (h : runOp N M chan dds fuel (Op.setDecim r) s = some s') :
    ∃ d : ℤ,
      coerce_decim (validDecims N M) ((r : ℚ)) = some d ∧
      s'.decim = d ∧
      s'.samp_rate_in = s.samp_rate_in ∧
      s'.samp_rate_out = s.samp_rate_in / (d : ℚ) ∧
      s'.scaling_in = s.scaling_in ∧
      s'.scaling_out = s.scaling_in * s'.residual_scaling ∧
      Clean s' := by
  obtain ⟨hc1, hc2, hc3, hc4, hc5, hc6, hc7, hc8⟩ := hC
  unfold runOp at h
  have hpick : pick (applyOp (Op.setDecim r) s) = some RName.rDecim := by
    simp [pick, applyOp, hc4]
  rcases run_some_elim h with ⟨hp, rfl⟩ | ⟨n, f1, t1, hpk, hfuel, ht1, hrun⟩
  · rw [hpick] at hp; cases hp
  · rw [hpick] at hpk
    obtain rfl : n = RName.rDecim := (Option.some.inj hpk).symm
    simp only [runResolver, resolveDecim, applyOp] at ht1
    dsimp only at ht1
    cases hco : coerce_decim (validDecims N M) ((r : ℚ)) with
    | none => rw [hco] at ht1; cases ht1
    | some d =>
      rw [hco] at ht1
      dsimp only at ht1
      cases hsd : set_decim N M chan d.toNat with
      | none => rw [hsd] at ht1; cases ht1
      | some res =>
        rw [hsd] at ht1
        dsimp only at ht1
        obtain rfl := Option.some.inj ht1
        have hrpos : (0 : ℚ) < ((r : ℤ) : ℚ) := coerce_decim_pos hco
        have hrz : (0 : ℤ) < r := by exact_mod_cast hrpos
        have hd1 : 1 ≤ d := by
          refine coerce_decim_one_le hco ?_
          have : (1 : ℤ) ≤ r := by omega
          exact_mod_cast this
        have hidem : coerce_decim (validDecims N M) ((d : ℚ)) = some d :=
          coerce_decim_idem_int (coerce_decim_mem hco) hd1
        by_cases hb1 : d = r
        · subst hb1
          obtain ⟨j1, j2, j3, j4, j5, j6, j7⟩ :=
            settled_run f1 _ s' d hd1 hidem (by rfl) (by rfl) (by simp)
              (by exact hc4) (by exact hc7) (by exact hc8) (by rfl) hrun
          refine ⟨d, rfl, j3, j1, j2, j4, ?_, j7⟩
          rw [j5]
          exact j6
        · rcases run_some_elim hrun with ⟨hp, rfl⟩ |
            ⟨n2, f2', t2, hpk2, hfuel2, ht2, hrun2⟩
          · simp [pick, hc4, hb1] at hp
          · simp only [pick] at hpk2
            rw [if_neg (by simp [hc4] : ¬ (_ = true))] at hpk2
            rw [if_pos (by simp [hb1] :
              (decide (d ≠ r) : Bool) = true)] at hpk2
            obtain rfl : n2 = RName.rDecim := (Option.some.inj hpk2).symm
            simp only [runResolver, resolveDecim] at ht2
            dsimp only at ht2
            rw [hidem] at ht2
            dsimp only at ht2
            rw [hsd] at ht2
            dsimp only at ht2
            obtain rfl := Option.some.inj ht2
            obtain ⟨j1, j2, j3, j4, j5, j6, j7⟩ :=
              settled_run f2' _ s' d hd1 hidem (by rfl) (by rfl) (by simp)
                (by exact hc4) (by exact hc7) (by exact hc8) (by rfl) hrun2
            refine ⟨d, rfl, j3, j1, j2, j4, ?_, j7⟩
            rw [j5]
            exact j6

/-- C3: after an external set of the `decim` property that resolves
successfully from a clean state, the stored decimation equals `coerce_decim`
of the requested value, and the output-rate property equals the (unchanged)
input rate divided by that resolved decimation, exactly. -/
theorem decim_set_resolves (N M chan : ℕ) (dds : ℚ → ℚ → ℚ) (fuel : ℕ)
    (s s' : EState) (r : ℤ) (hC : Clean s)
    (h : runOp N M chan dds fuel (Op.setDecim r) s = some s') :
    coerce_decim (validDecims N M) ((r : ℚ)) = some s'.decim ∧
    s'.samp_rate_in = s.samp_rate_in ∧
    s'.samp_rate_out = s'.samp_rate_in / (s'.decim : ℚ) := by
  obtain ⟨d, hco, hd, h1, h2, -, -, -⟩ := runOp_setDecim_spec hC h
  refine ⟨by rw [hco, hd], h1, ?_⟩
  rw [h2, hd, h1]

theorem decim_set_resolves_witness :
    Clean
      { samp_rate_in := 18, samp_rate_out := 18, scaling_in := 1,
        scaling_out := 1, decim := 1, freq := 0, type_in := "sc16",
        type_out := "sc16", residual_scaling := 1,
        d_samp_rate_in := false, d_samp_rate_out := false,
        d_scaling_in := false, d_scaling_out := false, d_decim := false,
        d_freq := false, d_type_in := false, d_type_out := false } ∧
    (coerce_decim (validDecims 1 5) ((3 : ℤ) : ℚ) =
      some (EState.decim
        { samp_rate_in := 18, samp_rate_out := 6, scaling_in := 1,
          scaling_out := 2097171 / 2097152, decim := 3, freq := 0,
          type_in := "sc16", type_out := "sc16",
          residual_scaling := 2097171 / 2097152,
          d_samp_rate_in := false, d_samp_rate_out := false,
          d_scaling_in := false, d_scaling_out := false, d_decim := false,
          d_freq := false, d_type_in := false, d_type_out := false }) ∧
     EState.samp_rate_in
        { samp_rate_in := 18, samp_rate_out := 6, scaling_in := 1,
          scaling_out := 2097171 / 2097152, decim := 3, freq := 0,
          type_in := "sc16", type_out := "sc16",
          residual_scaling := 2097171 / 2097152,
          d_samp_rate_in := false, d_samp_rate_out := false,
          d_scaling_in := false, d_scaling_out := false, d_decim := false,
          d_freq := false, d_type_in := false, d_type_out := false } =
      EState.samp_rate_in
        { samp_rate_in := 18, samp_rate_out := 18, scaling_in := 1,
          scaling_out := 1, decim := 1, freq := 0, type_in := "sc16",
          type_out := "sc16", residual_scaling := 1,
          d_samp_rate_in := false, d_samp_rate_out := false,
          d_scaling_in := false, d_scaling_out := false, d_decim := false,
          d_freq := false, d_type_in := false, d_type_out := false } ∧
     EState.samp_rate_out
        { samp_rate_in := 18, samp_rate_out := 6, scaling_in := 1,
          scaling_out := 2097171 / 2097152, decim := 3, freq := 0,
          type_in := "sc16", type_out := "sc16",
          residual_scaling := 2097171 / 2097152,
          d_samp_rate_in := false, d_samp_rate_out := false,
          d_scaling_in := false, d_scaling_out := false, d_decim := false,
          d_freq := false, d_type_in := false, d_type_out := false } =
      EState.samp_rate_in
          { samp_rate_in := 18, samp_rate_out := 6, scaling_in := 1,
            scaling_out := 2097171 / 2097152, decim := 3, freq := 0,
            type_in := "sc16", type_out := "sc16",
            residual_scaling := 2097171 / 2097152,
            d_samp_rate_in := false, d_samp_rate_out := false,
            d_scaling_in := false, d_scaling_out := false, d_decim := false,
            d_freq := false, d_type_in := false, d_type_out := false } /
        ((EState.decim
          { samp_rate_in := 18, samp_rate_out := 6, scaling_in := 1,
            scaling_out := 2097171 / 2097152, decim := 3, freq := 0,
            type_in := "sc16", type_out := "sc16",
            residual_scaling := 2097171 / 2097152,
            d_samp_rate_in := false, d_samp_rate_out := false,
            d_scaling_in := false, d_scaling_out := false, d_decim := false,
            d_freq := false, d_type_in := false, d_type_out := false } : ℤ) :
          ℚ)) :=
  ⟨⟨rfl, rfl, rfl, rfl, rfl, rfl, rfl, rfl⟩,
    decim_set_resolves 1 5 0 (fun f _ => f) 8 _ _ 3
      ⟨rfl, rfl, rfl, rfl, rfl, rfl, rfl, rfl⟩
      (by norm_num [runOp, run, pick, applyOp, runResolver, resolveDecim,
            resolveSampRateOut, resolveScalingIn, resolveScalingOut,
            coerce_decim, clipNearest, cppTrunc, set_decim, hbSplit,
            update_scaling, iround, FIXPOINT_SCALING, DDS_GAIN,
            (by decide : Int.toNat 3 = 3),
            (by decide : validDecims 1 5 = [0, 1, 2, 3, 4]),
            (by decide : ceil_log2 81 = 7),
            abs, sup_eq_max, max_def])⟩

/-- Master lemma for an external set of the output-rate (output-edge
sample-rate) property from a clean state: the resolver derives the new
decimation by coercing the `int`-truncated ratio `input / requested`; if the
decimation is unchanged only the output-rate property takes the requested
value, and if it changed the input rate is recomputed as
`requested * decim` and the rates end consistent. -/
theorem runOp_setSampRateOut_spec {N M chan : ℕ} {dds : ℚ → ℚ → ℚ}
    {fuel : ℕ} {s s' : EState} {v : ℚ} (hC : Clean s)
    (h : runOp N M chan dds fuel (Op.setSampRateOut v) s = some s') :
    ∃ d : ℤ,
      coerce_decim (validDecims N M)
        ((cppTrunc (s.samp_rate_in / v) : ℚ)) = some d ∧
      s'.decim = d ∧
      s'.scaling_in = s.scaling_in ∧
      Clean s' ∧
      (d = s.decim →
        s'.samp_rate_in = s.samp_rate_in ∧ s'.samp_rate_out = v ∧
        s'.scaling_out = s.scaling_out ∧
        s'.residual_scaling = s.residual_scaling) ∧
      (d ≠ s.decim →
        s'.samp_rate_in = v * (d : ℚ) ∧ s'.samp_rate_out = v ∧
        s'.samp_rate_out = s'.samp_rate_in / (d : ℚ) ∧
        s'.scaling_out = s.scaling_in * s'.residual_scaling) := by
  obtain ⟨hc1, hc2, hc3, hc4, hc5, hc6, hc7, hc8⟩ := hC
  unfold runOp at h
  have hpick : pick (applyOp (Op.setSampRateOut v) s)
      = some RName.rSampRateOut := by
    simp [pick, applyOp, hc4, hc5, hc6, hc1]
  rcases run_some_elim h with ⟨hp, rfl⟩ | ⟨n, f1, t1, hpk, hfuel, ht1, hrun⟩
  · rw [hpick] at hp; cases hp
  · rw [hpick] at hpk
    obtain rfl : n = RName.rSampRateOut := (Option.some.inj hpk).symm
    simp only [runResolver, resolveSampRateOut, applyOp] at ht1
    dsimp only at ht1
    cases hco : coerce_decim (validDecims N M)
        ((cppTrunc (s.samp_rate_in / v) : ℚ)) with
    | none => rw [hco] at ht1; cases ht1
    | some d =>
      rw [hco] at ht1
      dsimp only at ht1
      have htpos : (0 : ℚ) < ((cppTrunc (s.samp_rate_in / v) : ℤ) : ℚ) :=
        coerce_decim_pos hco
      have htz : (1 : ℤ) ≤ cppTrunc (s.samp_rate_in / v) := by
        exact_mod_cast htpos
      have hd1 : 1 ≤ d := by
        refine coerce_decim_one_le hco ?_
        exact_mod_cast htz
      have hidem : coerce_decim (validDecims N M) ((d : ℚ)) = some d :=
        coerce_decim_idem_int (coerce_decim_mem hco) hd1
      rw [hc5, Bool.false_or] at ht1
      by_cases hb : d = s.decim
      · have e : decide (d ≠ s.decim) = false := by simp [hb]
        rw [e] at ht1
        rw [if_neg (by simp : ¬ (false = true))] at ht1
        obtain rfl := Option.some.inj ht1
        rcases run_some_elim hrun with ⟨hp, rfl⟩ | ⟨n2, f2', t2, hpk2, -, -, -⟩
        · refine ⟨d, rfl, rfl, rfl,
            ⟨hc1, rfl, hc3, hc4, rfl, hc6, hc7, hc8⟩,
            fun _ => ⟨rfl, rfl, rfl, rfl⟩, fun hne => absurd hb hne⟩
        · rw [(by simp [pick, hc1, hc3, hc4, hc6, hc7, hc8] :
            pick _ = (none : Option RName))] at hpk2
          cases hpk2
      · have e : decide (d ≠ s.decim) = true := by simp [hb]
        rw [e] at ht1
        rw [if_pos (by rfl : (true : Bool) = true)] at ht1
        obtain rfl := Option.some.inj ht1
        rcases run_some_elim hrun with ⟨hp, rfl⟩ |
          ⟨n2, f2', t2, hpk2, hfuel2, ht2, hrun2⟩
        · have hx := (pick_none_clean hp).2.2.2.2.1
          simp at hx
        · simp only [pick] at hpk2
          rw [if_neg (by simp [hc4] : ¬ (_ = true))] at hpk2
          obtain rfl : n2 = RName.rDecim := (Option.some.inj hpk2).symm
          simp only [runResolver, resolveDecim] at ht2
          dsimp only at ht2
          rw [hidem] at ht2
          dsimp only at ht2
          cases hsd : set_decim N M chan d.toNat with
          | none => rw [hsd] at ht2; cases ht2
          | some res =>
            rw [hsd] at ht2
            dsimp only at ht2
            obtain rfl := Option.some.inj ht2
            obtain ⟨j1, j2, j3, j4, j5, j6, j7⟩ :=
              settled_run f2' _ s' d hd1 hidem (by rfl) (by rfl) (by simp)
                (by exact hc4) (by exact hc7) (by exact hc8) (by rfl) hrun2
            refine ⟨d, rfl, j3, j4, j7, fun heq => absurd heq hb,
              fun _ => ⟨j1, ?_, ?_, ?_⟩⟩
            · rw [j2]
              show v * (d : ℚ) / (d : ℚ) = v
              have : ((d : ℤ) : ℚ) ≠ 0 := by
                have : (0 : ℤ) < d := by omega
                exact_mod_cast this.ne'
              field_simp
            · rw [j2, j1]
            · rw [j5]
              exact j6

/-- C8 (amended): for an external set of the output-rate property, the new
decimation equals `coerce_decim` of the `int`-truncated ratio
`input / requested` (not of the ratio itself); when the decimation changed,
the input rate is recomputed as `requested × decimation` and the output
rate ends at the requested value, consistent with the new input rate; when
the decimation is unchanged the rates are simply left as set.  The
`set_output_rate` API call, by contrast, coerces the untruncated ratio and
recomputes the output rate from the (unchanged) input rate and the coerced
decimation. -/
theorem output_rate_set_resolves (N M chan : ℕ) (dds : ℚ → ℚ → ℚ)
    (fuel : ℕ) (s : EState) (hC : Clean s) :
    (∀ (v : ℚ) (s' : EState),
      runOp N M chan dds fuel (Op.setSampRateOut v) s = some s' →
      ∃ d : ℤ,
        coerce_decim (validDecims N M)
          ((cppTrunc (s.samp_rate_in / v) : ℚ)) = some d ∧
        s'.decim = d ∧
        (d = s.decim →
          s'.samp_rate_in = s.samp_rate_in ∧ s'.samp_rate_out = v) ∧
        (d ≠ s.decim →
          s'.samp_rate_in = v * (d : ℚ) ∧ s'.samp_rate_out = v ∧
          s'.samp_rate_out = s'.samp_rate_in / (d : ℚ))) ∧
    (∀ (rate : ℚ) (s' : EState),
      set_output_rate N M chan dds fuel s rate = some s' →
      ∃ d : ℤ,
        coerce_decim (validDecims N M) (s.samp_rate_in / rate) = some d ∧
        s'.decim = d ∧
        s'.samp_rate_in = s.samp_rate_in ∧
        s'.samp_rate_out = s.samp_rate_in / (d : ℚ)) := by
  constructor
  · intro v s' h
    obtain ⟨d, hco, hdec, -, -, hA, hB⟩ := runOp_setSampRateOut_spec hC h
    exact ⟨d, hco, hdec, fun heq => ⟨(hA heq).1, (hA heq).2.1⟩,
      fun hne => ⟨(hB hne).1, (hB hne).2.1, (hB hne).2.2.1⟩⟩
  · intro rate s' h
    unfold set_output_rate at h
    cases hco : coerce_decim (validDecims N M) (s.samp_rate_in / rate) with
    | none => rw [hco] at h; cases h
    | some d0 =>
      rw [hco] at h
      dsimp only at h
      obtain ⟨d, hco2, hdec, hin, hout, -, -, -⟩ := runOp_setDecim_spec hC h
      have hd0pos : (0 : ℚ) < ((d0 : ℤ) : ℚ) := coerce_decim_pos hco2
      have hd0 : 1 ≤ d0 := by exact_mod_cast hd0pos
      have : coerce_decim (validDecims N M) ((d0 : ℚ)) = some d0 :=
        coerce_decim_idem_int (coerce_decim_mem hco) hd0
      obtain rfl : d = d0 := by
        rw [this] at hco2
        exact (Option.some.inj hco2).symm
      exact ⟨d, rfl, hdec, hin, hout⟩

theorem output_rate_set_resolves_witness :
    Clean
      { samp_rate_in := 18, samp_rate_out := 9, scaling_in := 1,
        scaling_out := 1, decim := 1, freq := 0, type_in := "sc16",
        type_out := "sc16", residual_scaling := 1,
        d_samp_rate_in := false, d_samp_rate_out := false,
        d_scaling_in := false, d_scaling_out := false, d_decim := false,
        d_freq := false, d_type_in := false, d_type_out := false } ∧
    ∃ d : ℤ,
      coerce_decim (validDecims 1 5)
        ((cppTrunc ((EState.samp_rate_in
          { samp_rate_in := 18, samp_rate_out := 9, scaling_in := 1,
            scaling_out := 1, decim := 1, freq := 0, type_in := "sc16",
            type_out := "sc16", residual_scaling := 1,
            d_samp_rate_in := false, d_samp_rate_out := false,
            d_scaling_in := false, d_scaling_out := false, d_decim := false,
            d_freq := false, d_type_in := false, d_type_out := false }) / 5) :
          ℚ)) = some d ∧
      EState.decim
        { samp_rate_in := 15, samp_rate_out := 5, scaling_in := 1,
          scaling_out := 2097171 / 2097152, decim := 3, freq := 0,
          type_in := "sc16", type_out := "sc16",
          residual_scaling := 2097171 / 2097152,
          d_samp_rate_in := false, d_samp_rate_out := false,
          d_scaling_in := false, d_scaling_out := false, d_decim := false,
          d_freq := false, d_type_in := false, d_type_out := false } = d ∧
      (d = EState.decim
          { samp_rate_in := 18, samp_rate_out := 9, scaling_in := 1,
            scaling_out := 1, decim := 1, freq := 0, type_in := "sc16",
            type_out := "sc16", residual_scaling := 1,
            d_samp_rate_in := false, d_samp_rate_out := false,
            d_scaling_in := false, d_scaling_out := false, d_decim := false,
            d_freq := false, d_type_in := false, d_type_out := false } →
        EState.samp_rate_in
          { samp_rate_in := 15, samp_rate_out := 5, scaling_in := 1,
            scaling_out := 2097171 / 2097152, decim := 3, freq := 0,
            type_in := "sc16", type_out := "sc16",
            residual_scaling := 2097171 / 2097152,
            d_samp_rate_in := false, d_samp_rate_out := false,
            d_scaling_in := false, d_scaling_out := false, d_decim := false,
            d_freq := false, d_type_in := false, d_type_out := false } =
          EState.samp_rate_in
            { samp_rate_in := 18, samp_rate_out := 9, scaling_in := 1,
              scaling_out := 1, decim := 1, freq := 0, type_in := "sc16",
              type_out := "sc16", residual_scaling := 1,
              d_samp_rate_in := false, d_samp_rate_out := false,
              d_scaling_in := false, d_scaling_out := false, d_decim := false,
              d_freq := false, d_type_in := false, d_type_out := false } ∧
        EState.samp_rate_out
          { samp_rate_in := 15, samp_rate_out := 5, scaling_in := 1,
            scaling_out := 2097171 / 2097152, decim := 3, freq := 0,
            type_in := "sc16", type_out := "sc16",
            residual_scaling := 2097171 / 2097152,
            d_samp_rate_in := false, d_samp_rate_out := false,
            d_scaling_in := false, d_scaling_out := false, d_decim := false,
            d_freq := false, d_type_in := false, d_type_out := false } = 5) ∧
      (d ≠ EState.decim
          { samp_rate_in := 18, samp_rate_out := 9, scaling_in := 1,
            scaling_out := 1, decim := 1, freq := 0, type_in := "sc16",
            type_out := "sc16", residual_scaling := 1,
            d_samp_rate_in := false, d_samp_rate_out := false,
            d_scaling_in := false, d_scaling_out := false, d_decim := false,
            d_freq := false, d_type_in := false, d_type_out := false } →
        EState.samp_rate_in
          { samp_rate_in := 15, samp_rate_out := 5, scaling_in := 1,
            scaling_out := 2097171 / 2097152, decim := 3, freq := 0,
            type_in := "sc16", type_out := "sc16",
            residual_scaling := 2097171 / 2097152,
            d_samp_rate_in := false, d_samp_rate_out := false,
            d_scaling_in := false, d_scaling_out := false, d_decim := false,
            d_freq := false, d_type_in := false, d_type_out := false } =
          5 * (d : ℚ) ∧
        EState.samp_rate_out
          { samp_rate_in := 15, samp_rate_out := 5, scaling_in := 1,
            scaling_out := 2097171 / 2097152, decim := 3, freq := 0,
            type_in := "sc16", type_out := "sc16",
            residual_scaling := 2097171 / 2097152,
            d_samp_rate_in := false, d_samp_rate_out := false,
            d_scaling_in := false, d_scaling_out := false, d_decim := false,
            d_freq := false, d_type_in := false, d_type_out := false } = 5 ∧
        EState.samp_rate_out
          { samp_rate_in := 15, samp_rate_out := 5, scaling_in := 1,
            scaling_out := 2097171 / 2097152, decim := 3, freq := 0,
            type_in := "sc16", type_out := "sc16",
            residual_scaling := 2097171 / 2097152,
            d_samp_rate_in := false, d_samp_rate_out := false,
            d_scaling_in := false, d_scaling_out := false, d_decim := false,
            d_freq := false, d_type_in := false, d_type_out := false } =
          EState.samp_rate_in
              { samp_rate_in := 15, samp_rate_out := 5, scaling_in := 1,
                scaling_out := 2097171 / 2097152, decim := 3, freq := 0,
                type_in := "sc16", type_out := "sc16",
                residual_scaling := 2097171 / 2097152,
                d_samp_rate_in := false, d_samp_rate_out := false,
                d_scaling_in := false, d_scaling_out := false,
                d_decim := false, d_freq := false, d_type_in := false,
                d_type_out := false } / (d : ℚ)) :=
  ⟨⟨rfl, rfl, rfl, rfl, rfl, rfl, rfl, rfl⟩,
    (output_rate_set_resolves 1 5 0 (fun f _ => f) 8 _
        ⟨rfl, rfl, rfl, rfl, rfl, rfl, rfl, rfl⟩).1 5 _
      (by norm_num [runOp, run, pick, applyOp, runResolver, resolveDecim,
        resolveSampRateOut, resolveSampRateIn, resolveFreq, resolveScalingIn,
        resolveScalingOut, coerce_decim, clipNearest, cppTrunc, set_decim,
        hbSplit, update_scaling, iround, FIXPOINT_SCALING, DDS_GAIN,
        (by decide : Int.toNat 3 = 3),
        (by decide : validDecims 1 5 = [0, 1, 2, 3, 4]),
        (by decide : ceil_log2 81 = 7),
        abs, sup_eq_max, max_def])⟩

/-- C8 as stated fails on the code: setting the output-rate property to 5
with input rate 18 (one halfband, CIC max 5) resolves the decimation to
`coerce_decim(trunc(18/5)) = coerce_decim(3) = 3`, while
`coerce_decim(18/5) = 4`; the output rate is left exactly at the requested
value 5 (unachievable from the original input rate 18) and the input rate
is moved to 15 instead. -/
theorem output_rate_set_trunc_counterexample :
    runOp 1 5 0 (fun f _ => f) 8 (Op.setSampRateOut 5)
      { samp_rate_in := 18, samp_rate_out := 9, scaling_in := 1,
        scaling_out := 1, decim := 1, freq := 0, type_in := "sc16",
        type_out := "sc16", residual_scaling := 1,
        d_samp_rate_in := false, d_samp_rate_out := false,
        d_scaling_in := false, d_scaling_out := false, d_decim := false,
        d_freq := false, d_type_in := false, d_type_out := false } =
      some
        { samp_rate_in := 15, samp_rate_out := 5, scaling_in := 1,
          scaling_out := 2097171 / 2097152, decim := 3, freq := 0,
          type_in := "sc16", type_out := "sc16",
          residual_scaling := 2097171 / 2097152,
          d_samp_rate_in := false, d_samp_rate_out := false,
          d_scaling_in := false, d_scaling_out := false, d_decim := false,
          d_freq := false, d_type_in := false, d_type_out := false } ∧
    coerce_decim (validDecims 1 5) (18 / 5) = some 4 ∧
    (3 : ℤ) ≠ 4 ∧
    (18 : ℚ) / 4 ≠ 5 ∧ (18 : ℚ) / 3 ≠ 5 := by
  refine ⟨?_, ?_, by decide, by norm_num, by norm_num⟩
  · norm_num [runOp, run, pick, applyOp, runResolver, resolveDecim,
      resolveSampRateOut, resolveSampRateIn, resolveFreq, resolveScalingIn,
      resolveScalingOut, coerce_decim, clipNearest, cppTrunc, set_decim,
      hbSplit, update_scaling, iround, FIXPOINT_SCALING, DDS_GAIN,
      (by decide : Int.toNat 3 = 3),
      (by decide : validDecims 1 5 = [0, 1, 2, 3, 4]),
      (by decide : ceil_log2 81 = 7),
      abs, sup_eq_max, max_def]
  · rw [(by decide : validDecims 1 5 = [0, 1, 2, 3, 4])]
    norm_num [coerce_decim, clipNearest, abs, sup_eq_max, max_def]

/-! ### Claim C10: USRP2 motherboard property dispatch (`mboard_impl.cpp`)

The control-packet transport (`ctrl_send_and_recv`) is an external
collaborator, modelled as a function from the outgoing to the incoming
control data; byte-order conversion is dropped as it is invertible glue.
The register addresses and flag constants come from `usrp2_regs.hpp`, which
is not among the sources under verification; registers are identified by
name and the flag constants are modelled as distinct bits
(`Modelled from the spec:` the spec treats the register map as an external
interface).  A C++ `throw`/failed `ASSERT_THROW` is an `Except.error`; each
call also returns the list of bus effects (control packets sent, registers
poked) it performed before returning or throwing, and `mboard_set`
additionally returns the final stored state. -/

inductive CtrlId
  | give_me_your_mac_addr_bro
  | this_is_my_mac_addr_dude
  | give_me_your_ip_addr_bro
  | this_is_my_ip_addr_dude
  | here_is_a_new_mac_addr_bro
  | here_is_a_new_ip_addr_bro
  | other (code : ℕ)
deriving DecidableEq, Repr

structure CtrlData where
  id : CtrlId
  payload : String
deriving DecidableEq, Repr

inductive Reg
  | time64_secs
  | time64_ticks
  | time64_imm
  | time64_flags
deriving DecidableEq, Repr

inductive Effect
  | ctrl (out : CtrlData)
  | poke (r : Reg) (v : ℕ)
deriving DecidableEq, Repr

inductive PpsSource
  | sma
  | mimo
  | other (code : ℕ)
deriving DecidableEq, Repr

inductive PpsPolarity
  | pos
  | neg
  | other (code : ℕ)
deriving DecidableEq, Repr

structure ClockConfig where
  ref_source : ℕ
  pps_source : PpsSource
  pps_polarity : PpsPolarity
deriving DecidableEq, Repr

def FRF_TIME64_PPS_SMA : ℕ := 1

def FRF_TIME64_PPS_MIMO : ℕ := 2

def FRF_TIME64_PPS_POSEDGE : ℕ := 4

def FRF_TIME64_PPS_NEGEDGE : ℕ := 8

def FRF_TIME64_LATCH_NOW : ℕ := 16

def FRF_TIME64_LATCH_NEXT_PPS : ℕ := 32

structure TimeSpec where
  secs : ℕ
  ticks : ℕ
deriving DecidableEq, Repr

/-- `usrp2_impl::update_clock_config` (lines 52-73): translate the pps
enums into flags (unhandled values throw) and poke the flags register. -/
def update_clock_config (cc : ClockConfig) : Except String (List Effect) :=
  match cc.pps_source with
  | PpsSource.other _ =>
    Except.error "usrp2: unhandled clock configuration pps source"
  | src =>
    match cc.pps_polarity with
    | PpsPolarity.other _ =>
      Except.error "usrp2: unhandled clock configuration pps polarity"
    | pol =>
      Except.ok
        [Effect.poke Reg.time64_flags
          ((if src = PpsSource.sma then FRF_TIME64_PPS_SMA
            else FRF_TIME64_PPS_MIMO) |||
           (if pol = PpsPolarity.pos then FRF_TIME64_PPS_POSEDGE
            else FRF_TIME64_PPS_NEGEDGE))]

/-- `usrp2_impl::set_time_spec` (lines 75-83). -/
def set_time_spec (ts : TimeSpec) (now : Bool) : List Effect :=
  [Effect.poke Reg.time64_secs ts.secs,
   Effect.poke Reg.time64_ticks ts.ticks,
   Effect.poke Reg.time64_imm
     (if now then FRF_TIME64_LATCH_NOW else FRF_TIME64_LATCH_NEXT_PPS)]

inductive MVal
  | str (s : String)
  | strs (l : List String)
  | dbl (q : ℚ)
  | link (n : ℕ)
  | clockConfig (c : ClockConfig)
  | timeSpec (t : TimeSpec)
deriving DecidableEq, Repr

/-- The motherboard property keys: the two string-named properties handled
first, then the `mboard_prop_t` enumerators, with the name extracted by
`extract_named_prop` attached to the named properties. -/
inductive MboardProp
  | mac_addr
  | ip_addr
  | name
  | others
  | rx_dboard (n : String)
  | rx_dboard_names
  | tx_dboard (n : String)
  | tx_dboard_names
  | clock_rate
  | rx_dsp (n : String)
  | rx_dsp_names
  | tx_dsp (n : String)
  | tx_dsp_names
  | clock_config
  | time_now
  | time_next_pps
deriving DecidableEq, Repr

/-- Stored motherboard state: the dboard/dsp proxy dictionaries (a proxy
link is an opaque id) and the clock configuration. -/
structure MboardState where
  rx_dboards : List (String × ℕ)
  tx_dboards : List (String × ℕ)
  rx_dsps : List (String × ℕ)
  tx_dsps : List (String × ℕ)
  clock_config : ClockConfig
deriving DecidableEq, Repr

/-- `usrp2_impl::mboard_get` (lines 88-187). -/
def mboard_get (net : CtrlData → CtrlData) (mcf : ℚ) (s : MboardState)
    (k : MboardProp) : Except String MVal × List Effect :=
  match k with
  | MboardProp.mac_addr =>
    let out : CtrlData := ⟨CtrlId.give_me_your_mac_addr_bro, ""⟩
    let indata := net out
    if indata.id = CtrlId.this_is_my_mac_addr_dude then
      (Except.ok (MVal.str indata.payload), [Effect.ctrl out])
    else
      (Except.error "assertion failed", [Effect.ctrl out])
  | MboardProp.ip_addr =>
    let out : CtrlData := ⟨CtrlId.give_me_your_ip_addr_bro, ""⟩
    let indata := net out
    if indata.id = CtrlId.this_is_my_ip_addr_dude then
      (Except.ok (MVal.str indata.payload), [Effect.ctrl out])
    else
      (Except.error "assertion failed", [Effect.ctrl out])
  | MboardProp.name => (Except.ok (MVal.str "usrp2 mboard"), [])
  | MboardProp.others => (Except.ok (MVal.strs ["mac-addr", "ip-addr"]), [])
  | MboardProp.rx_dboard n =>
    match s.rx_dboards.lookup n with
    | some l => (Except.ok (MVal.link l), [])
    | none => (Except.error "assertion failed", [])
  | MboardProp.rx_dboard_names =>
    (Except.ok (MVal.strs (s.rx_dboards.map Prod.fst)), [])
  | MboardProp.tx_dboard n =>
    match s.tx_dboards.lookup n with
    | some l => (Except.ok (MVal.link l), [])
    | none => (Except.error "assertion failed", [])
  | MboardProp.tx_dboard_names =>
    (Except.ok (MVal.strs (s.tx_dboards.map Prod.fst)), [])
  | MboardProp.clock_rate => (Except.ok (MVal.dbl mcf), [])
  | MboardProp.rx_dsp n =>
    match s.rx_dsps.lookup n with
    | some l => (Except.ok (MVal.link l), [])
    | none => (Except.error "assertion failed", [])
  | MboardProp.rx_dsp_names =>
    (Except.ok (MVal.strs (s.rx_dsps.map Prod.fst)), [])
  | MboardProp.tx_dsp n =>
    match s.tx_dsps.lookup n with
    | some l => (Except.ok (MVal.link l), [])
    | none => (Except.error "assertion failed", [])
  | MboardProp.tx_dsp_names =>
    (Except.ok (MVal.strs (s.tx_dsps.map Prod.fst)), [])
  | MboardProp.clock_config =>
    (Except.ok (MVal.clockConfig s.clock_config), [])
  | MboardProp.time_now =>
    (Except.error "Error: trying to get write-only property on usrp2 mboard",
      [])
  | MboardProp.time_next_pps =>
    (Except.error "Error: trying to get write-only property on usrp2 mboard",
      [])

/-- `usrp2_impl::mboard_set` (lines 192-253); note that on a
`clock_config` set the member is assigned before `update_clock_config`
can throw, as in the source. -/
def mboard_set (net : CtrlData → CtrlData) (s : MboardState)
    (k : MboardProp) (v : MVal) :
    Except String Unit × List Effect × MboardState :=
  match k with
  | MboardProp.mac_addr =>
    match v with
    | MVal.str a =>
      let out : CtrlData := ⟨CtrlId.here_is_a_new_mac_addr_bro, a⟩
      let indata := net out
      if indata.id = CtrlId.this_is_my_mac_addr_dude then
        (Except.ok (), [Effect.ctrl out], s)
      else
        (Except.error "assertion failed", [Effect.ctrl out], s)
    | _ => (Except.error "wax cast error", [], s)
  | MboardProp.ip_addr =>
    match v with
    | MVal.str a =>
      let out : CtrlData := ⟨CtrlId.here_is_a_new_ip_addr_bro, a⟩
      let indata := net out
      if indata.id = CtrlId.this_is_my_ip_addr_dude then
        (Except.ok (), [Effect.ctrl out], s)
      else
        (Except.error "assertion failed", [Effect.ctrl out], s)
    | _ => (Except.error "wax cast error", [], s)
  | MboardProp.clock_config =>
    match v with
    | MVal.clockConfig cc =>
      match update_clock_config cc with
      | Except.ok effs => (Except.ok (), effs, { s with clock_config := cc })
      | Except.error e => (Except.error e, [], { s with clock_config := cc })
    | _ => (Except.error "wax cast error", [], s)
  | MboardProp.time_now =>
    match v with
    | MVal.timeSpec ts => (Except.ok (), set_time_spec ts true, s)
    | _ => (Except.error "wax cast error", [], s)
  | MboardProp.time_next_pps =>
    match v with
    | MVal.timeSpec ts => (Except.ok (), set_time_spec ts false, s)
    | _ => (Except.error "wax cast error", [], s)
  | _ =>
    (Except.error "Error: trying to set read-only property on usrp2 mboard",
      [], s)

/-- The read-only motherboard properties: name, others, clock rate, and all
dsp/dboard links and name lists. -/
def isReadOnlyMboardProp : MboardProp → Bool
  | MboardProp.name => true
  | MboardProp.others => true
  | MboardProp.clock_rate => true
  | MboardProp.rx_dsp _ => true
  | MboardProp.rx_dsp_names => true
  | MboardProp.tx_dsp _ => true
  | MboardProp.tx_dsp_names => true
  | MboardProp.rx_dboard _ => true
  | MboardProp.rx_dboard_names => true
  | MboardProp.tx_dboard _ => true
  | MboardProp.tx_dboard_names => true
  | _ => false

/-- C10: `mboard_get` on the write-only time properties raises a runtime
error, and `mboard_set` on every read-only property raises a runtime error;
in both failing cases no control packet is sent, no register is poked, and
the stored state is returned unchanged. -/
theorem mboard_direction_checked (net : CtrlData → CtrlData) (mcf : ℚ)
    (s : MboardState) (v : MVal) (k : MboardProp)
    (hk : isReadOnlyMboardProp k = true) :
    mboard_get net mcf s MboardProp.time_now =
      (Except.error "Error: trying to get write-only property on usrp2 mboard",
        []) ∧
    mboard_get net mcf s MboardProp.time_next_pps =
      (Except.error "Error: trying to get write-only property on usrp2 mboard",
        []) ∧
    mboard_set net s k v =
      (Except.error "Error: trying to set read-only property on usrp2 mboard",
        [], s) := by
  refine ⟨rfl, rfl, ?_⟩
  cases k <;> simp_all [mboard_set, isReadOnlyMboardProp]

theorem mboard_direction_checked_witness :
    isReadOnlyMboardProp MboardProp.clock_rate = true ∧
    (mboard_get (fun c => c) 100
        ⟨[], [], [], [], ⟨0, PpsSource.sma, PpsPolarity.neg⟩⟩
        MboardProp.time_now =
      (Except.error "Error: trying to get write-only property on usrp2 mboard",
        []) ∧
     mboard_get (fun c => c) 100
        ⟨[], [], [], [], ⟨0, PpsSource.sma, PpsPolarity.neg⟩⟩
        MboardProp.time_next_pps =
      (Except.error "Error: trying to get write-only property on usrp2 mboard",
        []) ∧
     mboard_set (fun c => c)
        ⟨[], [], [], [], ⟨0, PpsSource.sma, PpsPolarity.neg⟩⟩
        MboardProp.clock_rate (MVal.dbl 42) =
      (Except.error "Error: trying to set read-only property on usrp2 mboard",
        [], ⟨[], [], [], [], ⟨0, PpsSource.sma, PpsPolarity.neg⟩⟩)) :=
  ⟨by decide,
    mboard_direction_checked (fun c => c) 100
      ⟨[], [], [], [], ⟨0, PpsSource.sma, PpsPolarity.neg⟩⟩
      (MVal.dbl 42) MboardProp.clock_rate (by decide)⟩

end UHD












